import Mathlib

/-!
Verification development for the `websockets-monoio` client library.

The Rust sources are embedded shallowly: byte strings become `List Nat`
(each element a byte value), machine integers become `Nat` with explicit
`% 2 ^ 64` (respectively `% 2 ^ 32`) wherever the source relies on
fixed-width arithmetic, fallible operations return `Option` or `Except`,
and the transport is modelled as the list of byte chunks successive
`read` calls deliver.  External pure dependencies (SHA-1, base64, UTF-8
handling) are implemented here from their standard definitions, exactly
as the crates the source calls compute them.
-/

namespace WsMonoio

/-- UTF-8 encoding of a single character (RFC 3629), as byte values. -/
def encodeChar (c : Char) : List Nat :=
  let n := c.toNat
  if n < 128 then [n]
  else if n < 2048 then [192 + n / 64, 128 + n % 64]
  else if n < 65536 then [224 + n / 4096, 128 + n / 64 % 64, 128 + n % 64]
  else [240 + n / 262144, 128 + n / 4096 % 64, 128 + n / 64 % 64, 128 + n % 64]

/-- UTF-8 bytes of a character sequence. -/
def utf8Bytes : List Char → List Nat
  | [] => []
  | c :: cs => encodeChar c ++ utf8Bytes cs

/-- The bytes of a string (`str::as_bytes` in the source). -/
def strBytes (s : String) : List Nat := utf8Bytes s.toList

/-- Character of the standard base64 alphabet at index `n`. -/
def b64Char (n : Nat) : Char :=
  if n < 26 then Char.ofNat (65 + n)
  else if n < 52 then Char.ofNat (97 + (n - 26))
  else if n < 62 then Char.ofNat (48 + (n - 52))
  else if n = 62 then '+' else '/'

/-- Standard base64 with padding (the `base64` crate's STANDARD engine). -/
def b64Encode : List Nat → List Char
  | [] => []
  | [a] => [b64Char (a / 4), b64Char (a % 4 * 16), '=', '=']
  | [a, b] => [b64Char (a / 4), b64Char (a % 4 * 16 + b / 16), b64Char (b % 16 * 4), '=']
  | a :: b :: c :: rest =>
      b64Char (a / 4) :: b64Char (a % 4 * 16 + b / 16) :: b64Char (b % 16 * 4 + c / 64) ::
        b64Char (c % 64) :: b64Encode rest

/-- `2 ^ 32`, the modulus of 32-bit arithmetic used by SHA-1. -/
def M32 : Nat := 4294967296

/-- Left rotation of a 32-bit word by `k` bits. -/
def rotl32 (k n : Nat) : Nat := (n * 2 ^ k + n / 2 ^ (32 - k)) % M32

/-- SHA-1 padding: append `0x80`, zeros, and the 64-bit big-endian bit length. -/
def sha1Pad (msg : List Nat) : List Nat :=
  let len := msg.length
  let bitLen := len * 8
  let zeros := (55 + 64 - len % 64) % 64
  msg ++ 128 :: List.replicate zeros 0 ++
    [bitLen / 2 ^ 56 % 256, bitLen / 2 ^ 48 % 256, bitLen / 2 ^ 40 % 256,
     bitLen / 2 ^ 32 % 256, bitLen / 2 ^ 24 % 256, bitLen / 2 ^ 16 % 256,
     bitLen / 2 ^ 8 % 256, bitLen % 256]

/-- Group bytes into big-endian 32-bit words. -/
def toWords32 : List Nat → List Nat
  | b0 :: b1 :: b2 :: b3 :: rest =>
      (((b0 * 256 + b1) * 256 + b2) * 256 + b3) :: toWords32 rest
  | _ => []

/-- Extend a 16-word block to 80 words, `k` extension steps at a time. -/
def extendWords (w : List Nat) : Nat → List Nat
  | 0 => w
  | k + 1 =>
      let n := w.length
      extendWords
        (w ++ [rotl32 1 (((w.getD (n - 3) 0) ^^^ (w.getD (n - 8) 0)) ^^^
          ((w.getD (n - 14) 0) ^^^ (w.getD (n - 16) 0)))]) k

/-- The SHA-1 round function for round `i`. -/
def sha1F (i b c d : Nat) : Nat :=
  if i < 20 then (b &&& c) ||| ((b ^^^ 4294967295) &&& d)
  else if i < 40 then (b ^^^ c) ^^^ d
  else if i < 60 then (b &&& c) ||| (b &&& d) ||| (c &&& d)
  else (b ^^^ c) ^^^ d

/-- The SHA-1 round constant for round `i`. -/
def sha1K (i : Nat) : Nat :=
  if i < 20 then 1518500249 else if i < 40 then 1859775393
  else if i < 60 then 2400959708 else 3395469782

/-- The five-word SHA-1 working state. -/
structure Sha1State where
  a : Nat
  b : Nat
  c : Nat
  d : Nat
  e : Nat

/-- One SHA-1 round: `iw` is the pair of round index and schedule word. -/
def sha1Round (st : Sha1State) (iw : Nat × Nat) : Sha1State :=
  let t := (rotl32 5 st.a + sha1F iw.1 st.b st.c st.d + st.e + sha1K iw.1 + iw.2) % M32
  ⟨t, st.a, rotl32 30 st.b, st.c, st.d⟩

/-- Compress one 64-byte block (given as 16 words) into the state. -/
def sha1Block (h : Sha1State) (blockWords : List Nat) : Sha1State :=
  let w := extendWords blockWords 64
  let st := ((List.range 80).zip w).foldl sha1Round h
  ⟨(h.a + st.a) % M32, (h.b + st.b) % M32, (h.c + st.c) % M32,
   (h.d + st.d) % M32, (h.e + st.e) % M32⟩

/-- Fold all 64-byte blocks of an already padded message.  Each step
consumes 64 bytes, so any fuel at least the byte count is enough; fuel
keeps the recursion structural. -/
def sha1Blocks (fuel : Nat) (h : Sha1State) (bytes : List Nat) : Sha1State :=
  match fuel, bytes with
  | 0, _ => h
  | _, [] => h
  | f + 1, b :: bs =>
      sha1Blocks f (sha1Block h (toWords32 ((b :: bs).take 64))) ((b :: bs).drop 64)

/-- Big-endian bytes of a 32-bit word. -/
def word2bytes (w : Nat) : List Nat :=
  [w / 16777216 % 256, w / 65536 % 256, w / 256 % 256, w % 256]

/-- SHA-1 of a byte sequence (the `sha1` crate's digest). -/
def sha1 (msg : List Nat) : List Nat :=
  let padded := sha1Pad msg
  let st := sha1Blocks padded.length
    ⟨1732584193, 4023233417, 2562383102, 271733878, 3285377520⟩ padded
  word2bytes st.a ++ word2bytes st.b ++ word2bytes st.c ++ word2bytes st.d ++ word2bytes st.e

/-! ## URL parser (`src/url.rs`)

Strings are embedded as their character sequences; `parse_ws_or_wss` only
splits at ASCII characters found by `find` / `rsplit_once`, so the
character-level parser below produces the same host, port, and path as
the byte-level slicing in the source.  A byte-level twin together with a
proved correspondence appears further down. -/

/-- `Scheme` from `src/url.rs`. -/
inductive Scheme where
  | Ws
  | Wss
deriving DecidableEq, Repr

/-- `UrlError` from `src/url.rs`. -/
inductive UrlError where
  | Scheme
  | Port
deriving DecidableEq, Repr

/-- `WsUrl` from `src/url.rs`, with text fields as character lists. -/
structure WsUrl where
  scheme : Scheme
  host : List Char
  port : Nat
  path_and_query : List Char
deriving DecidableEq, Repr

/-- `rest.find(c)`-style split: first occurrence of `c`, the second
component starting at `c` inclusive (the source keeps the separator in
the path). -/
def breakFirst (c : Char) : List Char → Option (List Char × List Char)
  | [] => none
  | x :: xs =>
      if x = c then some ([], x :: xs)
      else (breakFirst c xs).map (fun p => (x :: p.1, p.2))

/-- `str::rsplit_once(c)`: split at the last occurrence of `c`, the
separator dropped. -/
def rsplitOnce (c : Char) : List Char → Option (List Char × List Char)
  | [] => none
  | x :: xs =>
      match rsplitOnce c xs with
      | some p => some (x :: p.1, p.2)
      | none => if x = c then some ([], xs) else none

/-- Digit-accumulating loop of `u16::from_str` (an ASCII digit is a
code point in `48..=57`). -/
def parseDigits (acc : Nat) : List Char → Option Nat
  | [] => some acc
  | c :: cs =>
      if 48 ≤ c.toNat ∧ c.toNat ≤ 57 then parseDigits (acc * 10 + (c.toNat - 48)) cs
      else none

/-- `str::parse::<u16>()`: an optional leading `+`, then one or more
ASCII digits whose value fits in 16 bits. -/
def parseU16 (l : List Char) : Option Nat :=
  let ds := match l with
    | '+' :: r => r
    | _ => l
  match ds with
  | [] => none
  | _ => (parseDigits 0 ds).bind fun n => if n < 65536 then some n else none

/-- The default port of a scheme (80 for `ws`, 443 for `wss`). -/
def defaultPort : Scheme → Nat
  | .Ws => 80
  | .Wss => 443

/-- The body of `parse_ws_or_wss` after the scheme prefix is stripped:
split at the first `/` (path defaults to `/`), split host-port at the
last `:`, and parse the port suffix as a `u16`. -/
def parseAfterScheme (scheme : Scheme) (rest : List Char) : Except UrlError WsUrl :=
  let hp := match breakFirst '/' rest with
    | some p => p
    | none => (rest, ['/'])
  match rsplitOnce ':' hp.1 with
  | some p =>
      match parseU16 p.2 with
      | some n => .ok ⟨scheme, p.1, n, hp.2⟩
      | none => .error .Port
  | none => .ok ⟨scheme, hp.1, defaultPort scheme, hp.2⟩

/-- `parse_ws_or_wss` from `src/url.rs`, over character lists: strip
`wss://` or `ws://` (case-sensitive, in source order) or fail with a
Scheme error, then parse the remainder. -/
def parseWsOrWssChars (input : List Char) : Except UrlError WsUrl :=
  if List.isPrefixOf ['w', 's', 's', ':', '/', '/'] input then
    parseAfterScheme .Wss (input.drop 6)
  else if List.isPrefixOf ['w', 's', ':', '/', '/'] input then
    parseAfterScheme .Ws (input.drop 5)
  else .error .Scheme

/-- `parse_ws_or_wss` on a Lean string. -/
def parse_ws_or_wss (s : String) : Except UrlError WsUrl :=
  parseWsOrWssChars s.toList

/-! ### Byte-level twin of the URL parser

Rust slices strings by byte index; `parse_ws_or_wss` slices at the byte
positions `find('/')` and `rsplit_once(':')` return.  The definitions
below redo the parse over the UTF-8 bytes exactly as the source slices
them; the correspondence theorem for claim C9 shows the byte-level
splits always land on character boundaries, i.e. every slice the source
takes is the encoding of a character-level slice. -/

/-- `WsUrl` with its text fields as raw bytes. -/
structure WsUrlB where
  scheme : Scheme
  host : List Nat
  port : Nat
  path_and_query : List Nat
deriving DecidableEq, Repr

/-- Byte-level first-occurrence split (second component keeps the
separator), mirroring `rest.find(c)` plus the two slices. -/
def breakFirstB (b : Nat) : List Nat → Option (List Nat × List Nat)
  | [] => none
  | x :: xs =>
      if x = b then some ([], x :: xs)
      else (breakFirstB b xs).map (fun p => (x :: p.1, p.2))

/-- Byte-level `rsplit_once`. -/
def rsplitOnceB (b : Nat) : List Nat → Option (List Nat × List Nat)
  | [] => none
  | x :: xs =>
      match rsplitOnceB b xs with
      | some p => some (x :: p.1, p.2)
      | none => if x = b then some ([], xs) else none

/-- Byte-level digit loop of `u16::from_str`. -/
def parseDigitsB (acc : Nat) : List Nat → Option Nat
  | [] => some acc
  | b :: bs => if 48 ≤ b ∧ b ≤ 57 then parseDigitsB (acc * 10 + (b - 48)) bs else none

/-- Byte-level `str::parse::<u16>()`. -/
def parseU16B (l : List Nat) : Option Nat :=
  let ds := match l with
    | 43 :: r => r
    | _ => l
  match ds with
  | [] => none
  | _ => (parseDigitsB 0 ds).bind fun n => if n < 65536 then some n else none

/-- Byte-level body of `parse_ws_or_wss` after the scheme prefix: split
at the first `/` byte, split host-port at the last `:` byte, parse the
port bytes. -/
def parseAfterSchemeB (scheme : Scheme) (rest : List Nat) : Except UrlError WsUrlB :=
  let hp := match breakFirstB 47 rest with
    | some p => p
    | none => (rest, [47])
  match rsplitOnceB 58 hp.1 with
  | some p =>
      match parseU16B p.2 with
      | some n => .ok ⟨scheme, p.1, n, hp.2⟩
      | none => .error .Port
  | none => .ok ⟨scheme, hp.1, defaultPort scheme, hp.2⟩

/-- `parse_ws_or_wss` over the raw UTF-8 bytes of the input. -/
def parseWsOrWssBytes (input : List Nat) : Except UrlError WsUrlB :=
  if List.isPrefixOf [119, 115, 115, 58, 47, 47] input then
    parseAfterSchemeB .Wss (input.drop 6)
  else if List.isPrefixOf [119, 115, 58, 47, 47] input then
    parseAfterSchemeB .Ws (input.drop 5)
  else .error .Scheme

/-! ## HTTP upgrade (`src/http_upgrade.rs`) -/

/-- `UpgradeErr` from `src/http_upgrade.rs`.  The `Io` and `Utf8`
variants carry payloads in the source; the payloads play no role in any
claim and are dropped here. -/
inductive UpgradeErr where
  | Eof
  | Oversized
  | Status
  | Headers
  | Accept
  | Io
  | Utf8
deriving DecidableEq, Repr

/-- Strict UTF-8 decoding (`std::str::from_utf8`): rejects overlong
forms, surrogates, and code points beyond U+10FFFF. -/
def utf8Decode : List Nat → Option (List Char)
  | [] => some []
  | b :: bs =>
    if b < 128 then (utf8Decode bs).map (Char.ofNat b :: ·)
    else if b < 194 then none
    else if b < 224 then
      match bs with
      | b1 :: rest =>
          if 128 ≤ b1 ∧ b1 < 192 then
            (utf8Decode rest).map (Char.ofNat ((b - 192) * 64 + (b1 - 128)) :: ·)
          else none
      | [] => none
    else if b < 240 then
      match bs with
      | b1 :: b2 :: rest =>
          let n := (b - 224) * 4096 + (b1 - 128) * 64 + (b2 - 128)
          if 128 ≤ b1 ∧ b1 < 192 ∧ 128 ≤ b2 ∧ b2 < 192 ∧ 2048 ≤ n ∧
              (n < 55296 ∨ 57344 ≤ n) then
            (utf8Decode rest).map (Char.ofNat n :: ·)
          else none
      | _ => none
    else if b < 245 then
      match bs with
      | b1 :: b2 :: b3 :: rest =>
          let n := (b - 240) * 262144 + (b1 - 128) * 4096 + (b2 - 128) * 64 + (b3 - 128)
          if 128 ≤ b1 ∧ b1 < 192 ∧ 128 ≤ b2 ∧ b2 < 192 ∧ 128 ≤ b3 ∧ b3 < 192 ∧
              65536 ≤ n ∧ n < 1114112 then
            (utf8Decode rest).map (Char.ofNat n :: ·)
          else none
      | _ => none
    else none

/-- ASCII lower-casing of a byte (`u8::to_ascii_lowercase`). -/
def asciiLower (b : Nat) : Nat := if 65 ≤ b ∧ b ≤ 90 then b + 32 else b

/-- `eq_ignore_ascii_case` on byte strings. -/
def eqIgnoreAsciiCaseBytes : List Nat → List Nat → Bool
  | [], [] => true
  | x :: xs, y :: ys => asciiLower x = asciiLower y && eqIgnoreAsciiCaseBytes xs ys
  | _, _ => false

/-- `char::is_whitespace` (the Unicode White_Space property), used by
`str::trim`. -/
def rustIsWhitespace (c : Char) : Bool :=
  let n := c.toNat
  (9 ≤ n ∧ n ≤ 13) ∨ n = 32 ∨ n = 133 ∨ n = 160 ∨ n = 5760 ∨
    (8192 ≤ n ∧ n ≤ 8202) ∨ n = 8232 ∨ n = 8233 ∨ n = 8239 ∨ n = 8287 ∨ n = 12288

/-- `str::trim`: drop Unicode whitespace from both ends. -/
def rustTrim (l : List Char) : List Char :=
  ((l.dropWhile rustIsWhitespace).reverse.dropWhile rustIsWhitespace).reverse

/-- One parsed header: `httparse::Header` with the name bytes and the
value bytes. -/
structure HttpHeader where
  name : List Nat
  value : List Nat
deriving DecidableEq, Repr

/-- `find_header` from `src/http_upgrade.rs`: the value of the first
header whose name matches case-insensitively. -/
def find_header (headers : List HttpHeader) (name : List Nat) : Option (List Nat) :=
  match headers with
  | [] => none
  | h :: t => if eqIgnoreAsciiCaseBytes h.name name then some h.value else find_header t name

/-- `value_eq_ascii` from `src/http_upgrade.rs`: UTF-8 validate, then
compare case-insensitively with an ASCII token. -/
def value_eq_ascii (value : List Nat) (token : String) : Except UpgradeErr Bool :=
  match utf8Decode value with
  | none => .error .Utf8
  | some _ => .ok (eqIgnoreAsciiCaseBytes value (strBytes token))

/-- `header_has_token` from `src/http_upgrade.rs`: UTF-8 validate, split
on commas, trim each part, and look for a case-insensitive match. -/
def header_has_token (value : List Nat) (token : String) : Except UpgradeErr Bool :=
  match utf8Decode value with
  | none => .error .Utf8
  | some text =>
      .ok ((text.splitOn ',').any fun part =>
        eqIgnoreAsciiCaseBytes (utf8Bytes (rustTrim part)) (strBytes token))

/-- The validation performed by `read_response` once `httparse` reports
a complete response (`src/http_upgrade.rs` lines 161-183): status 101,
`Connection` containing the token `upgrade`, `Upgrade` equal to
`websocket`, and `Sec-WebSocket-Accept` byte-equal to the expected
accept value. -/
def checkResponse (code : Option Nat) (headers : List HttpHeader)
    (expected : List Nat) : Except UpgradeErr Unit :=
  if code ≠ some 101 then .error .Status
  else
    match find_header headers (strBytes "Connection") with
    | none => .error .Headers
    | some conn =>
      match header_has_token conn "upgrade" with
      | .error e => .error e
      | .ok false => .error .Headers
      | .ok true =>
        match find_header headers (strBytes "Upgrade") with
        | none => .error .Headers
        | some up =>
          match value_eq_ascii up "websocket" with
          | .error e => .error e
          | .ok false => .error .Headers
          | .ok true =>
            match find_header headers (strBytes "Sec-WebSocket-Accept") with
            | none => .error .Headers
            | some acc =>
              match utf8Decode acc with
              | none => .error .Utf8
              | some _ => if acc = expected then .ok () else .error .Accept

/-! ### The header accumulation loop of `read_response`

The transport is modelled by the list of byte chunks that successive
`stream.read(&mut chunk)` calls deliver; the `chunk` buffer in the
source holds 1024 bytes, so a faithful transport never delivers more
than 1024 bytes per read.  An empty chunk models `read` returning `0`;
an exhausted list models a peer that delivers `0` forever. -/

/-- The terminator `\r\n\r\n` the `memmem::Finder` searches for. -/
def TERM : List Nat := [13, 10, 13, 10]

/-- `finder.find(..).is_some()`: does `\r\n\r\n` occur in `l`? -/
def hasTerm : List Nat → Bool
  | [] => false
  | x :: xs => TERM.isPrefixOf (x :: xs) || hasTerm xs

/-- Result of the accumulation loop, carrying the local `hdr` buffer as
it stands at the corresponding `return` / `break` in the source. -/
inductive LoopResult where
  | eof (hdr : List Nat)
  | oversized (hdr : List Nat)
  | done (hdr : List Nat)
deriving DecidableEq, Repr

/-- Is the result the `Oversized` exit? -/
def LoopResult.isOversized : LoopResult → Bool
  | .oversized _ => true
  | _ => false

/-- `read_response`'s loop (`src/http_upgrade.rs` lines 136-152): search
`hdr[scan_pos..]` for the terminator; if absent, remember
`hdr.len().saturating_sub(3)` as the next scan position, read a chunk
(zero bytes is `Eof`), append it, and fail with `Oversized` as soon as
the buffer exceeds `16 * 1024` bytes. -/
def readLoopFull (hdr : List Nat) (scanPos : Nat) : List (List Nat) → LoopResult
  | [] => if hasTerm (hdr.drop scanPos) then .done hdr else .eof hdr
  | c :: rest =>
      if hasTerm (hdr.drop scanPos) then .done hdr
      else if c = [] then .eof hdr
      else if (hdr ++ c).length > 16 * 1024 then .oversized (hdr ++ c)
      else readLoopFull (hdr ++ c) (hdr.length - 3) rest

/-- Modelled from the spec: the external HTTP head parser (`httparse`)
is not part of this repository; per the spec it parses the buffered
bytes as "an HTTP/1.x status line plus headers (header-count bounded,
e.g. 32 headers)" and "reports either a complete parse or a parse
failure".  Split one header line at the first `:`; the value has
leading and trailing SP/HT removed. -/
def parseHeaderLine (l : List Nat) : Option HttpHeader :=
  match
    (match l.splitOn 58 with
     | name :: restParts => some (name, restParts)
     | [] => none) with
  | none => none
  | some (name, restParts) =>
      if name = [] ∨ restParts = [] then none
      else
        let value := (List.intercalate [58] restParts)
        let trimmed := ((value.dropWhile fun b => b = 32 ∨ b = 9).reverse.dropWhile
          fun b => b = 32 ∨ b = 9).reverse
        some ⟨name, trimmed⟩

/-- Modelled from the spec: split a byte sequence on CRLF boundaries. -/
def splitCrlf (l : List Nat) : List (List Nat) :=
  (l.splitOn 13).foldr
    (fun part acc =>
      match acc with
      | [] => [part]
      | first :: rest =>
        match first with
        | 10 :: tail => part :: tail :: rest
        | _ => (part ++ 13 :: first) :: rest)
    []

/-- Modelled from the spec: the status line `HTTP/1.x <code> ...` of the
external parser; the code is three ASCII digits. -/
def parseStatusLine (l : List Nat) : Option Nat :=
  match l with
  | 72 :: 84 :: 84 :: 80 :: 47 :: 49 :: 46 :: v :: 32 :: d1 :: d2 :: d3 :: rest =>
      if (48 ≤ v ∧ v ≤ 57) ∧ (48 ≤ d1 ∧ d1 ≤ 57) ∧ (48 ≤ d2 ∧ d2 ≤ 57) ∧
          (48 ≤ d3 ∧ d3 ≤ 57) ∧ (rest = [] ∨ rest.head? = some 32) then
        some ((d1 - 48) * 100 + (d2 - 48) * 10 + (d3 - 48))
      else none
  | _ => none

/-- The bytes strictly before the first `\r\n\r\n`, or `none` when the
terminator is absent (a partial parse). -/
def takeUntilTerm : List Nat → Option (List Nat)
  | [] => none
  | x :: xs =>
      if TERM.isPrefixOf (x :: xs) then some []
      else (takeUntilTerm xs).map (x :: ·)

/-- Modelled from the spec: the external HTTP head parser applied to the
accumulated buffer.  The head runs up to the first blank line (bytes
after it are outside the head); at most 32 headers are accepted (the
source passes a 32-entry header array). -/
def parseResponse (hdr : List Nat) : Option (Nat × List HttpHeader) :=
  match takeUntilTerm hdr with
  | none => none
  | some head =>
      match splitCrlf head with
      | [] => none
      | statusLine :: headerLines =>
          match parseStatusLine statusLine with
          | none => none
          | some code =>
              match headerLines.mapM parseHeaderLine with
              | none => none
              | some headers =>
                  if headers.length ≤ 32 then some (code, headers) else none

/-- `read_response` from `src/http_upgrade.rs`: accumulate chunks until
the terminator is found, parse the buffered bytes, and validate.  The
function returns `Ok(())` in the source — no byte data accompanies a
successful return. -/
def read_response (chunks : List (List Nat)) (expected : List Nat) :
    Except UpgradeErr Unit :=
  match readLoopFull [] 0 chunks with
  | .eof _ => .error .Eof
  | .oversized _ => .error .Oversized
  | .done hdr =>
      match parseResponse hdr with
      | none => .error .Headers
      | some (code, headers) => checkResponse (some code) headers expected

/-! ### `write_request` (`src/http_upgrade.rs` lines 51-124)

`usize` arithmetic is embedded as `Nat` with an explicit modulus: the
unchecked `+` of the source wraps at `2 ^ 64` (release-profile
semantics), while `checked_add` fails past `2 ^ 64 - 1`.  The transport
side is recorded as the list of operations performed on the stream. -/

/-- The `usize` modulus. -/
def USIZE : Nat := 18446744073709551616

/-- Wrapping `usize` addition (an unchecked `+` in the source). -/
def wadd (a b : Nat) : Nat := (a + b) % USIZE

/-- `usize::checked_add`. -/
def checkedAdd (a b : Nat) : Option Nat :=
  if a + b < USIZE then some (a + b) else none

/-- `REQUEST_PREFIX`. -/
def REQUEST_PREFIX : List Nat := strBytes "GET "

/-- `REQUEST_SUFFIX`. -/
def REQUEST_SUFFIX : List Nat := strBytes " HTTP/1.1\r\nHost: "

/-- `UPGRADE_HEADERS`. -/
def UPGRADE_HEADERS : List Nat :=
  strBytes "\r\nUpgrade: websocket\r\nConnection: Upgrade\r\nSec-WebSocket-Version: 13\r\nSec-WebSocket-Key: "

/-- `HEADER_SEPARATOR`. -/
def HEADER_SEPARATOR : List Nat := strBytes ": "

/-- `CRLF`. -/
def CRLF : List Nat := strBytes "\r\n"

/-- One step of the `try_fold` computing `extra_headers_len`: every
addition is a `checked_add`. -/
def ehlStep (acc : Option Nat) (kv : List Nat × List Nat) : Option Nat :=
  acc.bind fun n =>
    (checkedAdd n kv.1.length).bind fun s1 =>
      (checkedAdd s1 HEADER_SEPARATOR.length).bind fun s2 =>
        (checkedAdd s2 kv.2.length).bind fun s3 =>
          checkedAdd s3 CRLF.length

/-- The `try_fold` computing `extra_headers_len`. -/
def extra_headers_len (extra : List (List Nat × List Nat)) : Option Nat :=
  extra.foldl ehlStep (some 0)

/-- `base_len`: a chain of unchecked (wrapping) additions over the fixed
parts, the path, the host, and the nonce. -/
def base_len (host path key : List Nat) : Nat :=
  wadd (wadd (wadd (wadd (wadd (wadd (wadd REQUEST_PREFIX.length path.length)
    REQUEST_SUFFIX.length) host.length) UPGRADE_HEADERS.length) key.length)
    CRLF.length) CRLF.length

/-- `total_len`: the single `checked_add` joining base and extras. -/
def total_len (host path key : List Nat) (extra : List (List Nat × List Nat)) :
    Option Nat :=
  (extra_headers_len extra).bind fun el => checkedAdd (base_len host path key) el

/-- An operation performed on the transport. -/
inductive WriteOp where
  | write (bytes : List Nat)
  | flush
deriving DecidableEq, Repr

/-- `write_request` from `src/http_upgrade.rs`: compute the sizes, build
the buffer by the source's sequence of `extend_from_slice` calls, and
emit one `write_all` followed by one `flush`.  `try_reserve` is modelled
as succeeding (allocation failure is outside the embedding); both size
failures map to `UpgradeErr::Io` as in the source. -/
def write_request (host path key : List Nat) (extra : List (List Nat × List Nat)) :
    Except UpgradeErr (List WriteOp) :=
  match extra_headers_len extra with
  | none => .error .Io
  | some el =>
      match checkedAdd (base_len host path key) el with
      | none => .error .Io
      | some _total =>
          let buffer := REQUEST_PREFIX ++ path ++ REQUEST_SUFFIX ++ host ++
            UPGRADE_HEADERS ++ key ++ CRLF
          let buffer := extra.foldl
            (fun b kv => b ++ kv.1 ++ HEADER_SEPARATOR ++ kv.2 ++ CRLF) buffer
          let buffer := buffer ++ CRLF
          .ok [.write buffer, .flush]

/-! ## Client key generation (`src/http_upgrade.rs` lines 35-49)

The randomness is injected: `generate_client_key` is a function of the
16 bytes the RNG produced. -/

/-- The fixed WebSocket GUID. -/
def WS_GUID : List Nat := strBytes "258EAFA5-E914-47DA-95CA-C5AB0DC85B11"

/-- `ClientKey` from `src/http_upgrade.rs`. -/
structure ClientKey where
  sec_websocket_key : String
  expected_accept : String
deriving DecidableEq, Repr

/-- `generate_client_key`: base64 the random bytes into the nonce, then
SHA-1 the nonce bytes followed by the GUID and base64 the digest. -/
def generate_client_key (keyBytes : List Nat) : ClientKey :=
  let sec := b64Encode keyBytes
  ⟨String.mk sec, String.mk (b64Encode (sha1 (utf8Bytes sec ++ WS_GUID)))⟩

/-- The expected accept value computed for a given nonce string. -/
def expectedAcceptOfNonce (nonce : String) : String :=
  String.mk (b64Encode (sha1 (strBytes nonce ++ WS_GUID)))

/-! ## Connection orchestrator (`src/client.rs`)

The effectful steps (TCP connect, TCP_NODELAY, server-name parsing, TLS
handshake, the two handshake halves) are injected as an environment of
outcomes, and the sequencing of `connect_with_buffer_size` is embedded
over it. -/

/-- `fastwebsockets::Role`. -/
inductive Role where
  | Client
  | Server
deriving DecidableEq, Repr

/-- The post-handshake frame-engine entity: the fields of
`fastwebsockets::WebSocket` that the claims mention. -/
structure FrameEngine where
  role : Role
  autoClose : Bool
  autoPong : Bool
  writev : Bool
deriving DecidableEq, Repr

/-- Modelled from the spec: `WebSocket::after_handshake` of the external
frame engine is not part of this repository.  Per the spec the orchestrator
must construct the entity "in client role, with automatic close-frame and
pong-frame handling enabled, and with write-gathering disabled when the
transport is TLS-backed"; the source achieves the last point by calling
`set_writev(false)` only on the TLS path, so the constructor's
write-gathering default is enabled. -/
def after_handshake (role : Role) : FrameEngine :=
  ⟨role, false, false, true⟩

/-- `TlsErr` from `src/tls.rs` (payloads dropped). -/
inductive TlsErrM where
  | Dns
  | Io
  | Rustls
deriving DecidableEq, Repr

/-- The typed error surfaced by `connect_with_buffer_size` (the source
wraps each in `anyhow::Error`; the originating variant is kept). -/
inductive ConnectErr where
  | Url (e : UrlError)
  | Io
  | Tls (e : TlsErrM)
  | Upgrade (e : UpgradeErr)
deriving DecidableEq, Repr

/-- Outcomes of the effectful steps of one connection attempt. -/
structure ConnectEnv where
  tcpOk : Bool
  nodelayOk : Bool
  dnsOk : Bool
  tlsOk : Bool
  writeResult : Except UpgradeErr Unit
  readResult : Except UpgradeErr Unit
deriving Repr

/-- `WsClient` from `src/client.rs`. -/
structure WsClientM where
  ws : FrameEngine
deriving DecidableEq, Repr

/-- The transport-establishment step of `connect_with_buffer_size`: a
plain TCP connect plus TCP_NODELAY for `ws`, or `connect_wss` (TCP, then
server-name parsing, then the TLS handshake) for `wss`; error variants
as the source's `From` conversions produce them. -/
def establishTransport (scheme : Scheme) (env : ConnectEnv) : Except ConnectErr Unit :=
  match scheme with
  | .Ws =>
      if env.tcpOk then
        if env.nodelayOk then .ok () else .error .Io
      else .error .Io
  | .Wss =>
      if env.tcpOk then
        if env.dnsOk then
          if env.tlsOk then .ok () else .error (.Tls .Rustls)
        else .error (.Tls .Dns)
      else .error (.Tls .Io)

/-- `connect_with_buffer_size` from `src/client.rs`: parse the URL, open
the transport per scheme, run the two handshake halves, then construct
the frame engine in client role, enable auto close and auto pong, and
disable write-gathering on the TLS path.  `bufferSize` only sizes the
stream wrapper in the source and does not affect the claims. -/
def connect_with_buffer_size (url : String) (env : ConnectEnv) (_bufferSize : Nat) :
    Except ConnectErr WsClientM :=
  match parse_ws_or_wss url with
  | .error e => .error (.Url e)
  | .ok u =>
      match establishTransport u.scheme env with
      | .error e => .error e
      | .ok () =>
          match env.writeResult with
          | .error e => .error (.Upgrade e)
          | .ok () =>
              match env.readResult with
              | .error e => .error (.Upgrade e)
              | .ok () =>
                  let ws := after_handshake .Client
                  let ws := { ws with autoClose := true, autoPong := true }
                  let ws := if u.scheme = .Wss then { ws with writev := false } else ws
                  .ok ⟨ws⟩

/-! ## Spec-side definitions

The definitions below transcribe the words of the specification (not
the source); the claims compare them against the embedded code. -/

/-- Does the header's name match `n` case-insensitively? -/
def nameIs (h : HttpHeader) (n : String) : Bool :=
  eqIgnoreAsciiCaseBytes h.name (strBytes n)

/-- Spec wording: the value, "split on commas and trimmed, contains a
token equal to `upgrade` case-insensitively" (on a valid-UTF-8 value). -/
def valueHasToken (v : List Nat) (tok : String) : Bool :=
  match utf8Decode v with
  | none => false
  | some text =>
      (text.splitOn ',').any fun part =>
        eqIgnoreAsciiCaseBytes (utf8Bytes (rustTrim part)) (strBytes tok)

/-- Spec wording: an `Upgrade` header "equal to `websocket`
case-insensitively" (on a valid-UTF-8 value). -/
def valueIsWebsocket (v : List Nat) : Bool :=
  (utf8Decode v).isSome && eqIgnoreAsciiCaseBytes v (strBytes "websocket")

/-- Spec wording: a `Sec-WebSocket-Accept` header "valid UTF-8, and
byte-equal to the precomputed expected accept". -/
def acceptMatches (v e : List Nat) : Bool :=
  (utf8Decode v).isSome && v = e

/-- The spec's acceptance condition for a parsed response, stated
order-independently: status 101 and the three required headers present
somewhere in the header list with the required values. -/
def specAccepts (code : Option Nat) (headers : List HttpHeader) (expected : List Nat) :
    Bool :=
  (code = some 101 : Bool) &&
  (headers.any fun h => nameIs h "Connection" && valueHasToken h.value "upgrade") &&
  (headers.any fun h => nameIs h "Upgrade" && valueIsWebsocket h.value) &&
  (headers.any fun h => nameIs h "Sec-WebSocket-Accept" && acceptMatches h.value expected)

/-- No two headers share a name (case-insensitively). -/
def noDupNames : List HttpHeader → Bool
  | [] => true
  | h :: t => (t.all fun h2 => !eqIgnoreAsciiCaseBytes h.name h2.name) && noDupNames t

/-- The request wire format exactly as §4.4 of the spec lists it, line
by line. -/
def specRequestBytes (host path key : List Nat) (extra : List (List Nat × List Nat)) :
    List Nat :=
  strBytes "GET " ++ path ++ strBytes " HTTP/1.1\r\n" ++
  strBytes "Host: " ++ host ++ strBytes "\r\n" ++
  strBytes "Upgrade: websocket\r\n" ++
  strBytes "Connection: Upgrade\r\n" ++
  strBytes "Sec-WebSocket-Version: 13\r\n" ++
  strBytes "Sec-WebSocket-Key: " ++ key ++ strBytes "\r\n" ++
  (extra.map fun kv => kv.1 ++ strBytes ": " ++ kv.2 ++ strBytes "\r\n").flatten ++
  strBytes "\r\n"

/-- The exact (unwrapped) byte count of one extra-header block. -/
def trueExtra (extra : List (List Nat × List Nat)) : Nat :=
  extra.foldl (fun n kv => n + kv.1.length + 2 + kv.2.length + 2) 0

/-- The exact (unwrapped) total request size the spec's overflow-checked
computation describes. -/
def requestTrueSize (host path key : List Nat) (extra : List (List Nat × List Nat)) :
    Nat :=
  4 + path.length + 17 + host.length + 89 + key.length + 2 + trueExtra extra + 2

/-- Encode the text fields of a parsed URL. -/
def encodeUrl (u : WsUrl) : WsUrlB :=
  ⟨u.scheme, utf8Bytes u.host, u.port, utf8Bytes u.path_and_query⟩

/-- The buffer held at the loop exit. -/
def LoopResult.hdr : LoopResult → List Nat
  | .eof h => h
  | .oversized h => h
  | .done h => h

/-- The allowed cumulative sizes during accumulation: every prefix of
the chunk stream, starting from `n` already-buffered bytes, stays within
the 16 KiB cap. -/
def capOk : Nat → List (List Nat) → Prop
  | _, [] => True
  | n, c :: r => n + c.length ≤ 16 * 1024 ∧ capOk (n + c.length) r

/-- A transport delivery for claim C4's counterexample: 16380 filler
bytes without a terminator, then one full 1024-byte read whose first
four bytes complete the header section at offset 16384 — inside the cap
— followed by 1020 bytes of the first frame. -/
def c4cex : List (List Nat) :=
  List.replicate 15 (List.replicate 1024 97) ++
    [List.replicate 1020 97, TERM ++ List.replicate 1020 97]

/-- A well-formed 101 response whose accept value is the RFC 6455 worked
example. -/
def okResp : List Nat :=
  strBytes "HTTP/1.1 101 Switching Protocols\r\nConnection: Upgrade\r\nUpgrade: websocket\r\nSec-WebSocket-Accept: s3pPLMBiTxaQ9kYGzzhZRbK+xOo=\r\n\r\n"

/-- The first seven bytes of a server text frame `hello`, as they could
arrive in the same read as the end of the response head. -/
def frameTail : List Nat := [129, 5, 104, 101, 108, 108, 111]

/-! ## Theorems -/

instance decEqExcept {ε α : Type} [DecidableEq ε] [DecidableEq α] :
    DecidableEq (Except ε α)
  | .ok a, .ok b =>
      if h : a = b then .isTrue (by rw [h])
      else .isFalse (by intro he; cases he; exact h rfl)
  | .ok _, .error _ => .isFalse (by intro h; cases h)
  | .error _, .ok _ => .isFalse (by intro h; cases h)
  | .error e, .error f =>
      if h : e = f then .isTrue (by rw [h])
      else .isFalse (by intro he; cases he; exact h rfl)

/-- The length of a base64 encoding. -/
theorem b64Encode_length (l : List Nat) :
    (b64Encode l).length = 4 * ((l.length + 2) / 3) := by
  match l with
  | [] => rfl
  | [a] => simp [b64Encode]
  | [a, b] => simp [b64Encode]
  | a :: b :: c :: rest =>
      simp only [b64Encode, List.length_cons, b64Encode_length rest]
      omega

set_option maxRecDepth 8192 in
/-- C6: `generate_client_key` produces a nonce that is the base64
encoding of the 16 random bytes (24 characters long), and an expected
accept equal to `base64(SHA1(nonce_ascii ++ GUID))`; the RFC 6455 worked
example nonce yields the worked example accept value. -/
theorem c6_generate_client_key (kb : List Nat) (h : kb.length = 16) :
    (generate_client_key kb).sec_websocket_key = String.mk (b64Encode kb) ∧
    (generate_client_key kb).sec_websocket_key.length = 24 ∧
    (generate_client_key kb).expected_accept
      = String.mk (b64Encode (sha1 (utf8Bytes (b64Encode kb) ++ WS_GUID))) ∧
    expectedAcceptOfNonce "dGhlIHNhbXBsZSBub25jZQ==" = "s3pPLMBiTxaQ9kYGzzhZRbK+xOo=" := by
  refine ⟨rfl, ?_, rfl, ?_⟩
  · show (String.mk (b64Encode kb)).length = 24
    simp [String.length, b64Encode_length, h]
  · decide

/-- `breakFirst` finds nothing when the separator is absent. -/
theorem breakFirst_not_mem (c : Char) (l : List Char) (h : c ∉ l) :
    breakFirst c l = none := by
  induction l with
  | nil => rfl
  | cons x xs ih =>
      simp only [List.mem_cons, not_or] at h
      have hx : ¬ x = c := fun e => h.1 e.symm
      simp [breakFirst, hx, ih h.2]

/-- `breakFirst` splits at the first occurrence of the separator. -/
theorem breakFirst_split (c : Char) (pre post : List Char) (h : c ∉ pre) :
    breakFirst c (pre ++ c :: post) = some (pre, c :: post) := by
  induction pre with
  | nil => simp [breakFirst]
  | cons x xs ih =>
      simp only [List.mem_cons, not_or] at h
      have hx : ¬ x = c := fun e => h.1 e.symm
      simp [breakFirst, hx, ih h.2]

/-- `rsplitOnce` finds nothing when the separator is absent. -/
theorem rsplitOnce_not_mem (c : Char) (l : List Char) (h : c ∉ l) :
    rsplitOnce c l = none := by
  induction l with
  | nil => rfl
  | cons x xs ih =>
      simp only [List.mem_cons, not_or] at h
      have hx : ¬ x = c := fun e => h.1 e.symm
      simp [rsplitOnce, hx, ih h.2]

/-- `rsplitOnce` splits at the last occurrence of the separator. -/
theorem rsplitOnce_split (c : Char) (h p : List Char) (hp : c ∉ p) :
    rsplitOnce c (h ++ c :: p) = some (h, p) := by
  induction h with
  | nil => simp [rsplitOnce, rsplitOnce_not_mem c p hp]
  | cons x xs ih => simp [rsplitOnce, ih]

/-- C7: the URL parser accepts exactly the `ws://` / `wss://` prefixes,
splits host-port from the path at the first slash (path defaulting to
`/`), splits the port at the last colon with the scheme default when
absent, and behaves as specified on the four worked examples. -/
theorem c7_parse_url :
    parse_ws_or_wss "ws://example.com/path?x=1"
      = .ok ⟨.Ws, "example.com".toList, 80, "/path?x=1".toList⟩ ∧
    parse_ws_or_wss "wss://example.com:8443"
      = .ok ⟨.Wss, "example.com".toList, 8443, "/".toList⟩ ∧
    parse_ws_or_wss "http://x" = .error .Scheme ∧
    parse_ws_or_wss "ws://host:notaport/" = .error .Port ∧
    (∀ s : List Char, List.isPrefixOf ['w', 's', ':', '/', '/'] s = false →
      List.isPrefixOf ['w', 's', 's', ':', '/', '/'] s = false →
      parseWsOrWssChars s = .error .Scheme) ∧
    (∀ hp rest : List Char, '/' ∉ hp → ':' ∉ hp →
      parseWsOrWssChars (['w', 's', ':', '/', '/'] ++ hp ++ '/' :: rest)
        = .ok ⟨.Ws, hp, 80, '/' :: rest⟩) ∧
    (∀ hp rest : List Char, '/' ∉ hp → ':' ∉ hp →
      parseWsOrWssChars (['w', 's', 's', ':', '/', '/'] ++ hp ++ '/' :: rest)
        = .ok ⟨.Wss, hp, 443, '/' :: rest⟩) ∧
    (∀ h p rest : List Char, '/' ∉ h → '/' ∉ p → ':' ∉ p →
      parseWsOrWssChars (['w', 's', ':', '/', '/'] ++ h ++ ':' :: p ++ '/' :: rest)
        = match parseU16 p with
          | some n => .ok ⟨.Ws, h, n, '/' :: rest⟩
          | none => .error .Port) ∧
    (∀ hp : List Char, '/' ∉ hp → ':' ∉ hp →
      parseWsOrWssChars (['w', 's', ':', '/', '/'] ++ hp) = .ok ⟨.Ws, hp, 80, ['/']⟩) := by
  refine ⟨by decide, by decide, by decide, by decide, ?_, ?_, ?_, ?_, ?_⟩
  · intro s h1 h2
    simp [parseWsOrWssChars, h1, h2]
  · intro hp rest h1 h2
    simp only [List.cons_append, List.nil_append]
    simp [parseWsOrWssChars, List.isPrefixOf, parseAfterScheme,
      breakFirst_split '/' hp rest h1, rsplitOnce_not_mem ':' hp h2, defaultPort]
  · intro hp rest h1 h2
    simp only [List.cons_append, List.nil_append]
    simp [parseWsOrWssChars, List.isPrefixOf, parseAfterScheme,
      breakFirst_split '/' hp rest h1, rsplitOnce_not_mem ':' hp h2, defaultPort]
  · intro h p rest h1 h2 h3
    have hnm : '/' ∉ h ++ ':' :: p := by
      simp only [List.mem_append, List.mem_cons, not_or]
      exact ⟨h1, by decide, h2⟩
    have key := breakFirst_split '/' (h ++ ':' :: p) rest hnm
    rw [show (h ++ ':' :: p) ++ '/' :: rest = h ++ ':' :: (p ++ '/' :: rest) by simp] at key
    simp only [List.cons_append, List.nil_append]
    cases hu : parseU16 p <;>
      simp [parseWsOrWssChars, List.isPrefixOf, parseAfterScheme, key,
        rsplitOnce_split ':' h p h3, hu]
  · intro hp h1 h2
    simp only [List.cons_append, List.nil_append]
    simp [parseWsOrWssChars, List.isPrefixOf, parseAfterScheme,
      breakFirst_not_mem '/' hp h1, rsplitOnce_not_mem ':' hp h2, defaultPort]

/-- Witness for C7's quantified conjuncts at concrete inputs. -/
theorem c7_parse_url_witness :
    parseWsOrWssChars ['x'] = .error .Scheme ∧
    parseWsOrWssChars (['w', 's', ':', '/', '/'] ++ ['h'] ++ '/' :: ['p'])
      = .ok ⟨.Ws, ['h'], 80, '/' :: ['p']⟩ ∧
    parseWsOrWssChars (['w', 's', 's', ':', '/', '/'] ++ ['h'] ++ '/' :: ['p'])
      = .ok ⟨.Wss, ['h'], 443, '/' :: ['p']⟩ ∧
    parseWsOrWssChars (['w', 's', ':', '/', '/'] ++ ['h'] ++ ':' :: ['8'] ++ '/' :: ['p'])
      = (match parseU16 ['8'] with
         | some n => .ok ⟨.Ws, ['h'], n, '/' :: ['p']⟩
         | none => .error .Port) ∧
    parseWsOrWssChars (['w', 's', ':', '/', '/'] ++ ['h']) = .ok ⟨.Ws, ['h'], 80, ['/']⟩ :=
  ⟨c7_parse_url.2.2.2.2.1 ['x'] (by decide) (by decide),
   c7_parse_url.2.2.2.2.2.1 ['h'] ['p'] (by decide) (by decide),
   c7_parse_url.2.2.2.2.2.2.1 ['h'] ['p'] (by decide) (by decide),
   c7_parse_url.2.2.2.2.2.2.2.1 ['h'] ['8'] ['p'] (by decide) (by decide) (by decide),
   c7_parse_url.2.2.2.2.2.2.2.2 ['h'] (by decide) (by decide)⟩

/-- Case-insensitive byte equality is equality of lower-cased images. -/
theorem eqIC_iff_map (a b : List Nat) :
    eqIgnoreAsciiCaseBytes a b = true ↔ a.map asciiLower = b.map asciiLower := by
  induction a generalizing b with
  | nil => cases b <;> simp [eqIgnoreAsciiCaseBytes]
  | cons x xs ih => cases b <;> simp [eqIgnoreAsciiCaseBytes, ih]

/-- Under duplicate-free names, an existential header search agrees with
the first-match lookup `find_header` performs. -/
theorem find_header_any (hs : List HttpHeader) (n : List Nat) (P : List Nat → Bool)
    (hnd : noDupNames hs = true) :
    (hs.any fun h => eqIgnoreAsciiCaseBytes h.name n && P h.value)
      = match find_header hs n with
        | some v => P v
        | none => false := by
  induction hs with
  | nil => rfl
  | cons h t ih =>
      simp only [noDupNames, Bool.and_eq_true, List.all_eq_true] at hnd
      cases he : eqIgnoreAsciiCaseBytes h.name n with
      | true =>
          have ht : ∀ h2 ∈ t, eqIgnoreAsciiCaseBytes h2.name n = false := by
            intro h2 hm
            cases hq : eqIgnoreAsciiCaseBytes h2.name n with
            | false => rfl
            | true =>
                have hic : eqIgnoreAsciiCaseBytes h.name h2.name = true := by
                  rw [eqIC_iff_map] at he hq ⊢
                  rw [he, hq]
                have hd := hnd.1 h2 hm
                rw [hic] at hd
                simp at hd
          have hta : (t.any fun h2 => eqIgnoreAsciiCaseBytes h2.name n && P h2.value)
              = false := by
            rw [List.any_eq_false]
            intro h2 hm
            simp [ht h2 hm]
          simp [List.any_cons, find_header, he, hta]
      | false => simp [List.any_cons, find_header, he, ih hnd.2]

/-- `header_has_token` in terms of the spec-side token predicate. -/
theorem header_has_token_eq (v : List Nat) (t : String) :
    header_has_token v t
      = match utf8Decode v with
        | none => .error .Utf8
        | some _ => .ok (valueHasToken v t) := by
  unfold header_has_token valueHasToken
  cases utf8Decode v <;> simp

/-- `value_eq_ascii` in terms of the spec-side predicates. -/
theorem value_eq_ascii_eq (v : List Nat) (t : String) :
    value_eq_ascii v t
      = match utf8Decode v with
        | none => .error .Utf8
        | some _ => .ok (eqIgnoreAsciiCaseBytes v (strBytes t)) := by
  unfold value_eq_ascii
  cases utf8Decode v <;> simp

/-- A Bool-valued option match is true exactly when its Prop form holds. -/
theorem optionMatch_true (o : Option (List Nat)) (P : List Nat → Bool) :
    ((match o with | some v => P v | none => false) = true)
      ↔ (match o with | some v => P v = true | none => False) := by
  cases o <;> simp

/-- The validation chain succeeds exactly when the status is 101 and
each first-occurrence header passes its check. -/
theorem checkResponse_ok_iff (code : Option Nat) (hs : List HttpHeader) (e : List Nat) :
    (checkResponse code hs e = .ok ()) ↔
      (code = some 101 ∧
       (match find_header hs (strBytes "Connection") with
        | some v => valueHasToken v "upgrade" = true
        | none => False) ∧
       (match find_header hs (strBytes "Upgrade") with
        | some v => valueIsWebsocket v = true
        | none => False) ∧
       (match find_header hs (strBytes "Sec-WebSocket-Accept") with
        | some v => acceptMatches v e = true
        | none => False)) := by
  unfold checkResponse
  by_cases hc : code = some 101
  · simp only [hc, ne_eq, not_true_eq_false, if_false, true_and]
    cases h1 : find_header hs (strBytes "Connection") with
    | none => simp
    | some conn =>
        dsimp only
        rw [header_has_token_eq]
        cases hd1 : utf8Decode conn with
        | none =>
            have hvt : valueHasToken conn "upgrade" = false := by
              unfold valueHasToken
              rw [hd1]
            simp [hvt]
        | some text1 =>
            cases htk : valueHasToken conn "upgrade" with
            | false => simp [htk]
            | true =>
                simp only [htk]
                cases h2 : find_header hs (strBytes "Upgrade") with
                | none => simp
                | some up =>
                    dsimp only
                    rw [value_eq_ascii_eq]
                    cases hd2 : utf8Decode up with
                    | none =>
                        have hvw : valueIsWebsocket up = false := by
                          unfold valueIsWebsocket
                          rw [hd2]
                          rfl
                        simp [hvw]
                    | some text2 =>
                        cases hws : eqIgnoreAsciiCaseBytes up (strBytes "websocket") with
                        | false =>
                            have hvw : valueIsWebsocket up = false := by
                              unfold valueIsWebsocket
                              rw [hd2, hws]
                              rfl
                            simp [hvw, hws]
                        | true =>
                            have hvw : valueIsWebsocket up = true := by
                              unfold valueIsWebsocket
                              rw [hd2, hws]
                              rfl
                            simp only [hvw, hws]
                            cases h3 : find_header hs (strBytes "Sec-WebSocket-Accept") with
                            | none => simp
                            | some acc =>
                                cases hd3 : utf8Decode acc with
                                | none => simp [acceptMatches, hd3]
                                | some text3 =>
                                    by_cases hae : acc = e
                                    · subst hae
                                      simp [acceptMatches, hd3]
                                    · simp [acceptMatches, hd3, hae]
  · simp [hc]

/-- C2: for a completely parsed response, validation succeeds exactly
when the status is 101 and the three required headers are present (in
any order, names matched case-insensitively, duplicate-free) with a
`Connection` token `upgrade`, `Upgrade` equal to `websocket`, and a
byte-equal `Sec-WebSocket-Accept`; and a response passing the status
and header checks whose accept value is wrong yields exactly an Accept
error. -/
theorem c2_validation_iff (code : Option Nat) (hs : List HttpHeader) (e : List Nat)
    (hnd : noDupNames hs = true) :
    ((checkResponse code hs e = .ok ()) ↔ specAccepts code hs e = true) ∧
    (code = some 101 →
      (hs.any fun h => nameIs h "Connection" && valueHasToken h.value "upgrade") = true →
      (hs.any fun h => nameIs h "Upgrade" && valueIsWebsocket h.value) = true →
      (hs.any fun h => nameIs h "Sec-WebSocket-Accept" &&
        ((utf8Decode h.value).isSome && h.value ≠ e)) = true →
      checkResponse code hs e = .error .Accept) := by
  have fc : (hs.any fun h => nameIs h "Connection" && valueHasToken h.value "upgrade")
      = match find_header hs (strBytes "Connection") with
        | some v => valueHasToken v "upgrade"
        | none => false :=
    find_header_any hs (strBytes "Connection") (fun v => valueHasToken v "upgrade") hnd
  have fu : (hs.any fun h => nameIs h "Upgrade" && valueIsWebsocket h.value)
      = match find_header hs (strBytes "Upgrade") with
        | some v => valueIsWebsocket v
        | none => false :=
    find_header_any hs (strBytes "Upgrade") (fun v => valueIsWebsocket v) hnd
  have fa : (hs.any fun h => nameIs h "Sec-WebSocket-Accept" && acceptMatches h.value e)
      = match find_header hs (strBytes "Sec-WebSocket-Accept") with
        | some v => acceptMatches v e
        | none => false :=
    find_header_any hs (strBytes "Sec-WebSocket-Accept") (fun v => acceptMatches v e) hnd
  have fw : (hs.any fun h => nameIs h "Sec-WebSocket-Accept" &&
        ((utf8Decode h.value).isSome && h.value ≠ e))
      = match find_header hs (strBytes "Sec-WebSocket-Accept") with
        | some v => (utf8Decode v).isSome && v ≠ e
        | none => false :=
    find_header_any hs (strBytes "Sec-WebSocket-Accept")
      (fun v => (utf8Decode v).isSome && v ≠ e) hnd
  constructor
  · rw [checkResponse_ok_iff]
    unfold specAccepts
    simp only [Bool.and_eq_true, decide_eq_true_eq]
    rw [fc, fu, fa]
    rw [optionMatch_true, optionMatch_true, optionMatch_true]
    constructor
    · rintro ⟨a, b, c, d⟩
      exact ⟨⟨⟨a, b⟩, c⟩, d⟩
    · rintro ⟨⟨⟨a, b⟩, c⟩, d⟩
      exact ⟨a, b, c, d⟩
  · intro hcp hconn hup hacc
    rw [fc] at hconn
    rw [fu] at hup
    rw [fw] at hacc
    unfold checkResponse
    simp only [hcp, ne_eq, not_true_eq_false, if_false]
    cases h1 : find_header hs (strBytes "Connection") with
    | none => rw [h1] at hconn; simp at hconn
    | some conn =>
        rw [h1] at hconn
        simp only at hconn
        dsimp only
        rw [header_has_token_eq]
        cases hq1 : utf8Decode conn with
        | none =>
            unfold valueHasToken at hconn
            rw [hq1] at hconn
            simp at hconn
        | some t1 =>
            simp only [hconn]
            cases h2 : find_header hs (strBytes "Upgrade") with
            | none => rw [h2] at hup; simp at hup
            | some up =>
                rw [h2] at hup
                simp only at hup
                unfold valueIsWebsocket at hup
                rw [Bool.and_eq_true] at hup
                dsimp only
                rw [value_eq_ascii_eq]
                cases hq2 : utf8Decode up with
                | none => rw [hq2] at hup; simp at hup
                | some t2 =>
                    simp only [hup.2]
                    cases h3 : find_header hs (strBytes "Sec-WebSocket-Accept") with
                    | none => rw [h3] at hacc; simp at hacc
                    | some acc =>
                        rw [h3] at hacc
                        simp only [Bool.and_eq_true] at hacc
                        obtain ⟨ha1, ha2⟩ := hacc
                        cases hq3 : utf8Decode acc with
                        | none => rw [hq3] at ha1; simp at ha1
                        | some t3 =>
                            have hne : ¬ acc = e := by simpa using ha2
                            simp [hq3, hne]

/-- Witness for C2 at a concrete duplicate-free header list. -/
theorem c2_validation_iff_witness :
    ((checkResponse (some 101)
        [⟨strBytes "Connection", strBytes "keep-alive, Upgrade"⟩,
         ⟨strBytes "Upgrade", strBytes "WebSocket"⟩,
         ⟨strBytes "Sec-WebSocket-Accept", strBytes "ACC"⟩] (strBytes "ACC") = .ok ()) ↔
      specAccepts (some 101)
        [⟨strBytes "Connection", strBytes "keep-alive, Upgrade"⟩,
         ⟨strBytes "Upgrade", strBytes "WebSocket"⟩,
         ⟨strBytes "Sec-WebSocket-Accept", strBytes "ACC"⟩] (strBytes "ACC") = true) ∧
    (some 101 = some 101 →
      (List.any
        [⟨strBytes "Connection", strBytes "keep-alive, Upgrade"⟩,
         ⟨strBytes "Upgrade", strBytes "WebSocket"⟩,
         ⟨strBytes "Sec-WebSocket-Accept", strBytes "ACC"⟩]
        (fun h => nameIs h "Connection" && valueHasToken h.value "upgrade")) = true →
      (List.any
        [⟨strBytes "Connection", strBytes "keep-alive, Upgrade"⟩,
         ⟨strBytes "Upgrade", strBytes "WebSocket"⟩,
         ⟨strBytes "Sec-WebSocket-Accept", strBytes "ACC"⟩]
        (fun h => nameIs h "Upgrade" && valueIsWebsocket h.value)) = true →
      (List.any
        [⟨strBytes "Connection", strBytes "keep-alive, Upgrade"⟩,
         ⟨strBytes "Upgrade", strBytes "WebSocket"⟩,
         ⟨strBytes "Sec-WebSocket-Accept", strBytes "ACC"⟩]
        (fun h => nameIs h "Sec-WebSocket-Accept" &&
          ((utf8Decode h.value).isSome && h.value ≠ strBytes "ACC"))) = true →
      checkResponse (some 101)
        [⟨strBytes "Connection", strBytes "keep-alive, Upgrade"⟩,
         ⟨strBytes "Upgrade", strBytes "WebSocket"⟩,
         ⟨strBytes "Sec-WebSocket-Accept", strBytes "ACC"⟩] (strBytes "ACC")
        = .error .Accept) :=
  c2_validation_iff (some 101) _ (strBytes "ACC") (by decide)

/-- C10: header lookup returns the first name match in response order,
validation depends only on the first occurrence of each required header
(so later duplicates with conflicting values are ignored), and on
concrete duplicated headers the first occurrence decides the outcome. -/
theorem c10_first_header_wins :
    (∀ (h : HttpHeader) (t : List HttpHeader) (n : List Nat),
      find_header (h :: t) n
        = if eqIgnoreAsciiCaseBytes h.name n then some h.value else find_header t n) ∧
    (∀ (code : Option Nat) (hs1 hs2 : List HttpHeader) (e : List Nat),
      find_header hs1 (strBytes "Connection") = find_header hs2 (strBytes "Connection") →
      find_header hs1 (strBytes "Upgrade") = find_header hs2 (strBytes "Upgrade") →
      find_header hs1 (strBytes "Sec-WebSocket-Accept")
        = find_header hs2 (strBytes "Sec-WebSocket-Accept") →
      checkResponse code hs1 e = checkResponse code hs2 e) ∧
    checkResponse (some 101)
      [⟨strBytes "Connection", strBytes "upgrade"⟩,
       ⟨strBytes "Upgrade", strBytes "websocket"⟩,
       ⟨strBytes "Sec-WebSocket-Accept", strBytes "ACC"⟩,
       ⟨strBytes "connection", strBytes "close"⟩,
       ⟨strBytes "Sec-WebSocket-Accept", strBytes "WRONG"⟩] (strBytes "ACC") = .ok () ∧
    checkResponse (some 101)
      [⟨strBytes "Connection", strBytes "close"⟩,
       ⟨strBytes "connection", strBytes "upgrade"⟩,
       ⟨strBytes "Upgrade", strBytes "websocket"⟩,
       ⟨strBytes "Sec-WebSocket-Accept", strBytes "ACC"⟩] (strBytes "ACC")
      = .error .Headers := by
  refine ⟨?_, ?_, by decide, by decide⟩
  · intro h t n
    rfl
  · intro code hs1 hs2 e h1 h2 h3
    simp only [checkResponse, h1, h2, h3]

/-- Witness for C10's invariance conjunct: dropping a later duplicate
`Connection` header does not change the validation outcome. -/
theorem c10_first_header_wins_witness :
    checkResponse (some 101)
      [⟨strBytes "Connection", strBytes "upgrade"⟩,
       ⟨strBytes "Upgrade", strBytes "websocket"⟩,
       ⟨strBytes "Sec-WebSocket-Accept", strBytes "ACC"⟩,
       ⟨strBytes "Connection", strBytes "close"⟩] (strBytes "ACC")
      = checkResponse (some 101)
      [⟨strBytes "Connection", strBytes "upgrade"⟩,
       ⟨strBytes "Upgrade", strBytes "websocket"⟩,
       ⟨strBytes "Sec-WebSocket-Accept", strBytes "ACC"⟩] (strBytes "ACC") :=
  c10_first_header_wins.2.1 (some 101) _ _ (strBytes "ACC")
    (by decide) (by decide) (by decide)

set_option maxRecDepth 40000 in
/-- C1 (code bug): on a successful handshake read, `read_response`
returns a bare `Ok(())` — carrying no byte data — while its loop has
already consumed, into the discarded local buffer, bytes lying past the
`\r\n\r\n` terminator (here the first seven bytes of a frame delivered
in the same read); the result is identical with and without the
trailing bytes, so they are neither preserved nor signalled. -/
theorem c1_trailing_bytes_dropped :
    read_response [okResp ++ frameTail] (strBytes "s3pPLMBiTxaQ9kYGzzhZRbK+xOo=")
      = .ok () ∧
    read_response [okResp] (strBytes "s3pPLMBiTxaQ9kYGzzhZRbK+xOo=") = .ok () ∧
    readLoopFull [] 0 [okResp ++ frameTail] = .done (okResp ++ frameTail) ∧
    takeUntilTerm (okResp ++ frameTail) = takeUntilTerm okResp ∧
    frameTail ≠ [] :=
  ⟨by decide, by decide, by decide, by decide, by decide⟩

/-- Witness for C6 at a concrete 16-byte random draw. -/
theorem c6_generate_client_key_witness :
    (generate_client_key (List.replicate 16 0)).sec_websocket_key
      = String.mk (b64Encode (List.replicate 16 0)) ∧
    (generate_client_key (List.replicate 16 0)).sec_websocket_key.length = 24 ∧
    (generate_client_key (List.replicate 16 0)).expected_accept
      = String.mk (b64Encode (sha1 (utf8Bytes (b64Encode (List.replicate 16 0)) ++ WS_GUID))) ∧
    expectedAcceptOfNonce "dGhlIHNhbXBsZSBub25jZQ==" = "s3pPLMBiTxaQ9kYGzzhZRbK+xOo=" :=
  c6_generate_client_key (List.replicate 16 0) (by decide)

/-! ### Request size computation (C3, C5) -/

/-- `REQUEST_PREFIX` is 4 bytes. -/
theorem REQUEST_PREFIX_length : REQUEST_PREFIX.length = 4 := by decide

/-- `REQUEST_SUFFIX` is 17 bytes. -/
theorem REQUEST_SUFFIX_length : REQUEST_SUFFIX.length = 17 := by decide

/-- `UPGRADE_HEADERS` is 89 bytes. -/
theorem UPGRADE_HEADERS_length : UPGRADE_HEADERS.length = 89 := by decide

/-- `HEADER_SEPARATOR` is 2 bytes. -/
theorem HEADER_SEPARATOR_length : HEADER_SEPARATOR.length = 2 := by decide

/-- `CRLF` is 2 bytes. -/
theorem CRLF_length : CRLF.length = 2 := by decide

/-- Folding the checked step over `none` stays `none`. -/
theorem ehl_foldl_none (ex : List (List Nat × List Nat)) :
    ex.foldl ehlStep none = none := by
  induction ex with
  | nil => rfl
  | cons kv t ih => simpa [ehlStep] using ih

/-- The exact extra-header sum only grows along the fold. -/
theorem trueExtra_shift (ex : List (List Nat × List Nat)) (n : Nat) :
    ex.foldl (fun m kv => m + kv.1.length + 2 + kv.2.length + 2) n = n + trueExtra ex := by
  induction ex generalizing n with
  | nil => simp [trueExtra]
  | cons kv t ih =>
      simp only [trueExtra, List.foldl_cons] at *
      rw [ih, ih (0 + kv.1.length + 2 + kv.2.length + 2)]
      omega

/-- Peeling one extra header off the exact sum. -/
theorem trueExtra_cons (kv : List Nat × List Nat) (t : List (List Nat × List Nat)) :
    trueExtra (kv :: t) = kv.1.length + 2 + kv.2.length + 2 + trueExtra t := by
  have h0 : trueExtra (kv :: t)
      = t.foldl (fun m kv => m + kv.1.length + 2 + kv.2.length + 2)
          (0 + kv.1.length + 2 + kv.2.length + 2) := rfl
  rw [h0, trueExtra_shift]
  omega

/-- Closed form of one checked step. -/
theorem ehlStep_some (n : Nat) (kv : List Nat × List Nat) :
    ehlStep (some n) kv
      = if n + kv.1.length + 2 + kv.2.length + 2 < USIZE
        then some (n + kv.1.length + 2 + kv.2.length + 2) else none := by
  unfold ehlStep checkedAdd
  rw [HEADER_SEPARATOR_length, CRLF_length]
  simp only [Option.some_bind]
  by_cases c1 : n + kv.1.length < USIZE
  · rw [if_pos c1]
    simp only [Option.some_bind]
    by_cases c2 : n + kv.1.length + 2 < USIZE
    · rw [if_pos c2]
      simp only [Option.some_bind]
      by_cases c3 : n + kv.1.length + 2 + kv.2.length < USIZE
      · rw [if_pos c3]
        simp only [Option.some_bind]
      · rw [if_neg c3, if_neg (by omega)]
        simp
    · rw [if_neg c2, if_neg (by omega)]
      simp
  · rw [if_neg c1, if_neg (by omega)]
    simp

/-- The checked fold succeeds exactly on sums below the `usize` range,
and then computes the exact sum. -/
theorem ehl_aux (ex : List (List Nat × List Nat)) (n : Nat) (hn : n < USIZE) :
    ex.foldl ehlStep (some n)
      = if n + trueExtra ex < USIZE then some (n + trueExtra ex) else none := by
  induction ex generalizing n with
  | nil => simp [trueExtra, hn]
  | cons kv t ih =>
      rw [List.foldl_cons, ehlStep_some]
      by_cases hT : n + kv.1.length + 2 + kv.2.length + 2 < USIZE
      · rw [if_pos hT, ih _ hT, trueExtra_cons]
        by_cases h2 : n + kv.1.length + 2 + kv.2.length + 2 + trueExtra t < USIZE
        · rw [if_pos h2, if_pos (by omega)]
          congr 1
          omega
        · rw [if_neg h2, if_neg (by omega)]
      · rw [if_neg hT, ehl_foldl_none, trueExtra_cons, if_neg (by omega)]

/-- `extra_headers_len` characterised: it is the exact sum, checked
against the `usize` range at every addition. -/
theorem extra_headers_len_eq (ex : List (List Nat × List Nat)) :
    extra_headers_len ex
      = if trueExtra ex < USIZE then some (trueExtra ex) else none := by
  have h := ehl_aux ex 0 (by decide)
  simpa [extra_headers_len] using h

/-- `base_len` computes the exact base sum whenever that sum is
representable (no wrap occurs). -/
theorem base_len_eq (host path key : List Nat)
    (h : 4 + path.length + 17 + host.length + 89 + key.length + 2 + 2 < USIZE) :
    base_len host path key
      = 4 + path.length + 17 + host.length + 89 + key.length + 2 + 2 := by
  unfold base_len wadd
  rw [REQUEST_PREFIX_length, REQUEST_SUFFIX_length, UPGRADE_HEADERS_length, CRLF_length]
  unfold USIZE at h ⊢
  omega

/-- The source's buffer-building fold appends the spec's extra-header
block. -/
theorem extras_foldl_eq (ex : List (List Nat × List Nat)) (b : List Nat) :
    ex.foldl (fun b kv => b ++ kv.1 ++ HEADER_SEPARATOR ++ kv.2 ++ CRLF) b
      = b ++ (ex.map fun kv => kv.1 ++ strBytes ": " ++ kv.2 ++ strBytes "\r\n").flatten := by
  induction ex generalizing b with
  | nil => simp
  | cons kv t ih =>
      simp only [List.foldl_cons, List.map_cons, List.flatten_cons, ih]
      simp [HEADER_SEPARATOR, CRLF, List.append_assoc]

/-- The byte length of the spec's extra-header block is the exact sum. -/
theorem extras_flatten_length (ex : List (List Nat × List Nat)) :
    ((ex.map fun kv => kv.1 ++ strBytes ": " ++ kv.2 ++ strBytes "\r\n").flatten).length
      = trueExtra ex := by
  induction ex with
  | nil => simp [trueExtra]
  | cons kv t ih =>
      simp only [List.map_cons, List.flatten_cons, List.length_append, ih,
        trueExtra_cons]
      have h1 : (strBytes ": ").length = 2 := by decide
      have h2 : (strBytes "\r\n").length = 2 := by decide
      rw [h1, h2]

/-- For a representable request size, `write_request` computes that
size, emits one write of the spec's wire bytes and one flush, and the
serialized length equals the total. -/
theorem write_request_spec (host path key : List Nat) (ex : List (List Nat × List Nat))
    (h : requestTrueSize host path key ex < USIZE) :
    total_len host path key ex = some (requestTrueSize host path key ex) ∧
    write_request host path key ex
      = .ok [.write (specRequestBytes host path key ex), .flush] ∧
    (specRequestBytes host path key ex).length = requestTrueSize host path key ex := by
  unfold requestTrueSize at h
  have hext : trueExtra ex < USIZE := by omega
  have hbase : 4 + path.length + 17 + host.length + 89 + key.length + 2 + 2 < USIZE := by
    omega
  have he : extra_headers_len ex = some (trueExtra ex) := by
    rw [extra_headers_len_eq, if_pos hext]
  have hb := base_len_eq host path key hbase
  have hca : checkedAdd (base_len host path key) (trueExtra ex)
      = some (requestTrueSize host path key ex) := by
    unfold checkedAdd requestTrueSize
    rw [hb]
    rw [if_pos (by omega)]
    congr 1
    omega
  have hlen : (specRequestBytes host path key ex).length
      = requestTrueSize host path key ex := by
    unfold specRequestBytes requestTrueSize
    simp only [List.length_append, extras_flatten_length]
    have l1 : (strBytes "GET ").length = 4 := by decide
    have l2 : (strBytes " HTTP/1.1\r\n").length = 11 := by decide
    have l3 : (strBytes "Host: ").length = 6 := by decide
    have l4 : (strBytes "\r\n").length = 2 := by decide
    have l5 : (strBytes "Upgrade: websocket\r\n").length = 20 := by decide
    have l6 : (strBytes "Connection: Upgrade\r\n").length = 21 := by decide
    have l7 : (strBytes "Sec-WebSocket-Version: 13\r\n").length = 27 := by decide
    have l8 : (strBytes "Sec-WebSocket-Key: ").length = 19 := by decide
    rw [l1, l2, l3, l4, l5, l6, l7, l8]
  refine ⟨?_, ?_, hlen⟩
  · unfold total_len
    rw [he]
    simpa using hca
  · unfold write_request
    rw [he]
    dsimp only
    rw [hca]
    dsimp only
    have hbuf :
        REQUEST_PREFIX ++ path ++ REQUEST_SUFFIX ++ host ++ UPGRADE_HEADERS ++ key ++ CRLF
          ++ (ex.map fun kv => kv.1 ++ strBytes ": " ++ kv.2 ++ strBytes "\r\n").flatten
          ++ CRLF
        = specRequestBytes host path key ex := by
      have m1 : REQUEST_SUFFIX = strBytes " HTTP/1.1\r\n" ++ strBytes "Host: " := by decide
      have m2 : UPGRADE_HEADERS = strBytes "\r\n" ++ strBytes "Upgrade: websocket\r\n" ++
          strBytes "Connection: Upgrade\r\n" ++ strBytes "Sec-WebSocket-Version: 13\r\n" ++
          strBytes "Sec-WebSocket-Key: " := by decide
      have m3 : REQUEST_PREFIX = strBytes "GET " := by decide
      have m4 : CRLF = strBytes "\r\n" := by decide
      rw [m1, m2, m3, m4]
      unfold specRequestBytes
      simp [List.append_assoc]
    rw [extras_foldl_eq, hbuf]

/-- C5: whenever the request size is representable, `write_request`
computes exactly that size, emits one `write` of the §4.4 wire bytes —
`GET`, `Host`, the three fixed headers, `Sec-WebSocket-Key`, the extra
headers in caller order, and the final blank line — followed by one
`flush`, and the serialized length equals the computed total. -/
theorem c5_write_request (host path key : List Nat) (ex : List (List Nat × List Nat))
    (h : requestTrueSize host path key ex < USIZE) :
    total_len host path key ex = some (requestTrueSize host path key ex) ∧
    write_request host path key ex
      = .ok [.write (specRequestBytes host path key ex), .flush] ∧
    (specRequestBytes host path key ex).length = requestTrueSize host path key ex :=
  write_request_spec host path key ex h

/-- Witness for C5 at a one-extra-header request. -/
theorem c5_write_request_witness :
    total_len [104] [47] [75] [([65], [98])]
      = some (requestTrueSize [104] [47] [75] [([65], [98])]) ∧
    write_request [104] [47] [75] [([65], [98])]
      = .ok [.write (specRequestBytes [104] [47] [75] [([65], [98])]), .flush] ∧
    (specRequestBytes [104] [47] [75] [([65], [98])]).length
      = requestTrueSize [104] [47] [75] [([65], [98])] :=
  c5_write_request [104] [47] [75] [([65], [98])] (by decide)

/-- `base_len` expressed through the part lengths (symbolic form of the
wrapping chain). -/
theorem base_len_of_lengths (host path key : List Nat) (hp hh hk : Nat)
    (h1 : path.length = hp) (h2 : host.length = hh) (h3 : key.length = hk) :
    base_len host path key
      = (((((((4 + hp) % 18446744073709551616 + 17)
          % 18446744073709551616 + hh) % 18446744073709551616 + 89)
          % 18446744073709551616 + hk) % 18446744073709551616 + 2)
          % 18446744073709551616 + 2) % 18446744073709551616 := by
  unfold base_len wadd
  rw [REQUEST_PREFIX_length, REQUEST_SUFFIX_length, UPGRADE_HEADERS_length,
    CRLF_length, h1, h2, h3, USIZE]

/-- When both size checks pass, `write_request` succeeds with its write
operations. -/
theorem write_request_ok_shape (host path key : List Nat)
    (ex : List (List Nat × List Nat)) (n m : Nat)
    (h1 : extra_headers_len ex = some n)
    (h2 : checkedAdd (base_len host path key) n = some m) :
    ∃ ops, write_request host path key ex = .ok ops := by
  unfold write_request
  rw [h1]
  dsimp only
  rw [h2]
  exact ⟨_, rfl⟩

/-- C3 counterexample: an input whose true size is not representable in
`usize` (path and host of `9223372036854775807` = `2 ^ 63 - 1` bytes
each, the maximum Rust slice length) for which `write_request` does not
fail: the unchecked wrapping `base_len` folds the size to 112, the only
checked addition passes, and the call returns its write operations. -/
theorem c3_counterexample :
    USIZE ≤ requestTrueSize (List.replicate 9223372036854775807 97)
      (List.replicate 9223372036854775807 97) [] [] ∧
    ∃ ops, write_request (List.replicate 9223372036854775807 97)
      (List.replicate 9223372036854775807 97) [] [] = .ok ops := by
  constructor
  · have h0 : trueExtra ([] : List (List Nat × List Nat)) = 0 := rfl
    rw [requestTrueSize, List.length_replicate, List.length_nil, h0, USIZE]
    omega
  · have hb : base_len (List.replicate 9223372036854775807 97)
        (List.replicate 9223372036854775807 97) [] = 112 :=
      (base_len_of_lengths _ _ ([] : List Nat) 9223372036854775807
        9223372036854775807 0
        (List.length_replicate 9223372036854775807 97)
        (List.length_replicate 9223372036854775807 97) List.length_nil).trans
        (by decide)
    exact write_request_ok_shape _ _ _ [] 0 112 rfl
      (by rw [hb]; decide)

/-! ### The accumulation loop's cap (C4) -/

/-- A read that returns zero bytes before the terminator is found exits
with `Eof`. -/
theorem readLoop_zero_read (hdr : List Nat) (sp : Nat) (rest : List (List Nat))
    (h : hasTerm (hdr.drop sp) = false) :
    readLoopFull hdr sp ([] :: rest) = .eof hdr := by
  simp [readLoopFull, h]

/-- A read that carries the buffer past the 16 KiB cap exits with
`Oversized` at that growth step. -/
theorem readLoop_growth (hdr : List Nat) (sp : Nat) (c : List Nat)
    (rest : List (List Nat)) (h : hasTerm (hdr.drop sp) = false) (hc : c ≠ [])
    (hl : 16 * 1024 < (hdr ++ c).length) :
    readLoopFull hdr sp (c :: rest) = .oversized (hdr ++ c) := by
  simp only [readLoopFull, h, Bool.false_eq_true, if_false]
  rw [if_neg hc, if_pos hl]

/-- A read that stays within the cap just accumulates and continues. -/
theorem readLoop_step (hdr : List Nat) (sp : Nat) (c : List Nat)
    (rest : List (List Nat)) (h : hasTerm (hdr.drop sp) = false) (hc : c ≠ [])
    (hl : ¬ (hdr ++ c).length > 16 * 1024) :
    readLoopFull hdr sp (c :: rest) = readLoopFull (hdr ++ c) (hdr.length - 3) rest := by
  simp only [readLoopFull, h, Bool.false_eq_true, if_false]
  rw [if_neg hc, if_neg hl]

/-- With reads of at most the 1024-byte chunk buffer, the accumulated
buffer never exceeds the cap by more than one chunk. -/
theorem readLoop_hdr_bound (chunks : List (List Nat)) :
    ∀ (hdr : List Nat) (sp : Nat), hdr.length ≤ 16 * 1024 →
    (∀ c ∈ chunks, c.length ≤ 1024) →
    (readLoopFull hdr sp chunks).hdr.length ≤ 16 * 1024 + 1024 := by
  induction chunks with
  | nil =>
      intro hdr sp h1 _
      simp only [readLoopFull]
      by_cases ht : hasTerm (hdr.drop sp) = true
      · rw [if_pos ht]
        simp only [LoopResult.hdr]
        omega
      · rw [if_neg ht]
        simp only [LoopResult.hdr]
        omega
  | cons c rest ih =>
      intro hdr sp h1 h2
      simp only [readLoopFull]
      by_cases ht : hasTerm (hdr.drop sp) = true
      · rw [if_pos ht]
        simp only [LoopResult.hdr]
        omega
      · rw [if_neg ht]
        have hcb : c.length ≤ 1024 := h2 c (List.mem_cons_self c rest)
        by_cases hce : c = []
        · rw [if_pos hce]
          simp only [LoopResult.hdr]
          omega
        · rw [if_neg hce]
          by_cases hl : (hdr ++ c).length > 16 * 1024
          · rw [if_pos hl]
            simp only [LoopResult.hdr]
            rw [List.length_append]
            omega
          · rw [if_neg hl]
            exact ih (hdr ++ c) (hdr.length - 3)
              (by rw [List.length_append] at hl ⊢; omega)
              (fun c2 hm => h2 c2 (List.mem_cons_of_mem c hm))

/-- An `Oversized` exit always carries a buffer strictly past the cap. -/
theorem readLoop_oversized_gt (chunks : List (List Nat)) :
    ∀ (hdr h' : List Nat) (sp : Nat),
    readLoopFull hdr sp chunks = .oversized h' → 16 * 1024 < h'.length := by
  induction chunks with
  | nil =>
      intro hdr h' sp h
      simp only [readLoopFull] at h
      by_cases ht : hasTerm (hdr.drop sp) = true
      · rw [if_pos ht] at h
        cases h
      · rw [if_neg ht] at h
        cases h
  | cons c rest ih =>
      intro hdr h' sp h
      simp only [readLoopFull] at h
      by_cases ht : hasTerm (hdr.drop sp) = true
      · rw [if_pos ht] at h
        cases h
      · rw [if_neg ht] at h
        by_cases hce : c = []
        · rw [if_pos hce] at h
          cases h
        · rw [if_neg hce] at h
          by_cases hl : (hdr ++ c).length > 16 * 1024
          · rw [if_pos hl] at h
            cases h
            exact hl
          · rw [if_neg hl] at h
            exact ih _ _ _ h

/-- A `done` exit never carries a buffer past the cap (starting within
the cap). -/
theorem readLoop_done_le (chunks : List (List Nat)) :
    ∀ (hdr h' : List Nat) (sp : Nat), hdr.length ≤ 16 * 1024 →
    readLoopFull hdr sp chunks = .done h' → h'.length ≤ 16 * 1024 := by
  induction chunks with
  | nil =>
      intro hdr h' sp h1 h
      simp only [readLoopFull] at h
      by_cases ht : hasTerm (hdr.drop sp) = true
      · rw [if_pos ht] at h
        cases h
        exact h1
      · rw [if_neg ht] at h
        cases h
  | cons c rest ih =>
      intro hdr h' sp h1 h
      simp only [readLoopFull] at h
      by_cases ht : hasTerm (hdr.drop sp) = true
      · rw [if_pos ht] at h
        cases h
        exact h1
      · rw [if_neg ht] at h
        by_cases hce : c = []
        · rw [if_pos hce] at h
          cases h
        · rw [if_neg hce] at h
          by_cases hl : (hdr ++ c).length > 16 * 1024
          · rw [if_pos hl] at h
            cases h
          · rw [if_neg hl] at h
            exact ih _ _ _ (by rw [List.length_append] at hl ⊢; omega) h

/-- `hasTerm` finds the terminator exactly when it occurs at some
offset. -/
theorem hasTerm_iff (l : List Nat) :
    hasTerm l = true ↔ ∃ i, TERM.isPrefixOf (l.drop i) = true := by
  induction l with
  | nil =>
      simp only [hasTerm]
      constructor
      · intro h
        cases h
      · rintro ⟨i, hi⟩
        rw [List.drop_nil] at hi
        cases hi
  | cons x xs ih =>
      simp only [hasTerm, Bool.or_eq_true, ih]
      constructor
      · rintro (h | ⟨i, hi⟩)
        · exact ⟨0, by simpa using h⟩
        · exact ⟨i + 1, by simpa using hi⟩
      · rintro ⟨i, hi⟩
        cases i with
        | zero => exact Or.inl (by simpa using hi)
        | succ j => exact Or.inr ⟨j, by simpa using hi⟩

/-- A prefix test against an appended tail only depends on the first
list when that list is long enough. -/
theorem isPrefixOf_append_left (p : List Nat) :
    ∀ (x y : List Nat), p.length ≤ x.length →
    p.isPrefixOf (x ++ y) = p.isPrefixOf x := by
  induction p with
  | nil => intro x y _; simp [List.isPrefixOf]
  | cons a as ih =>
      intro x y h
      cases x with
      | nil => simp at h
      | cons b bs =>
          show (a == b && as.isPrefixOf (bs ++ y)) = (a == b && as.isPrefixOf bs)
          rw [ih bs y (by simpa using h)]

/-- An occurrence at an offset past the scan position is seen by a scan
from that position. -/
theorem hasTerm_of_occurrence (l : List Nat) (sp i : Nat) (hsp : sp ≤ i)
    (h : TERM.isPrefixOf (l.drop i) = true) : hasTerm (l.drop sp) = true := by
  rw [hasTerm_iff]
  refine ⟨i - sp, ?_⟩
  rw [List.drop_drop, Nat.add_sub_cancel' hsp]
  exact h

/-- Completeness of the overlapped scan: when every read is nonempty,
the cumulative sizes stay within the cap, and the terminator occurs in
the delivered bytes, the loop exits `done` — the `scan_pos` overlap of
three bytes never misses an occurrence. -/
theorem readLoop_complete (chunks : List (List Nat)) :
    ∀ (hdr : List Nat) (sp : Nat), sp ≤ hdr.length →
    (∀ i, i < sp → TERM.isPrefixOf (hdr.drop i) = false) →
    (∀ c ∈ chunks, c ≠ []) →
    capOk hdr.length chunks →
    hasTerm (hdr ++ chunks.flatten) = true →
    ∃ h', readLoopFull hdr sp chunks = .done h' := by
  induction chunks with
  | nil =>
      intro hdr sp hsp hinv _ _ hterm
      rw [List.flatten_nil, List.append_nil] at hterm
      have htop : hasTerm (hdr.drop sp) = true := by
        rw [hasTerm_iff] at hterm
        obtain ⟨i, hi⟩ := hterm
        by_cases hlt : i < sp
        · rw [hinv i hlt] at hi
          cases hi
        · exact hasTerm_of_occurrence hdr sp i (Nat.le_of_not_lt hlt) hi
      exact ⟨hdr, by simp [readLoopFull, htop]⟩
  | cons c rest ih =>
      intro hdr sp hsp hinv hne hcap hterm
      by_cases htop : hasTerm (hdr.drop sp) = true
      · exact ⟨hdr, by simp [readLoopFull, htop]⟩
      · have htop' : hasTerm (hdr.drop sp) = false := by
          cases hq : hasTerm (hdr.drop sp)
          · rfl
          · exact absurd hq htop
        have hcne : c ≠ [] := hne c (List.mem_cons_self c rest)
        have hclen : (hdr ++ c).length ≤ 16 * 1024 := by
          rw [List.length_append]
          exact hcap.1
        have hinv2 : ∀ i, i < hdr.length - 3 →
            TERM.isPrefixOf ((hdr ++ c).drop i) = false := by
          intro i hi
          cases hq : TERM.isPrefixOf ((hdr ++ c).drop i) with
          | false => rfl
          | true =>
              exfalso
              rw [List.drop_append_of_le_length (by omega)] at hq
              rw [isPrefixOf_append_left TERM (hdr.drop i) c
                (by rw [List.length_drop]; have ht4 : TERM.length = 4 := rfl; omega)] at hq
              by_cases hilt : i < sp
              · rw [hinv i hilt] at hq
                cases hq
              · have hh := hasTerm_of_occurrence hdr sp i (Nat.le_of_not_lt hilt) hq
                rw [htop'] at hh
                cases hh
        have hrec := ih (hdr ++ c) (hdr.length - 3)
          (by rw [List.length_append]; omega)
          hinv2
          (fun c2 hm => hne c2 (List.mem_cons_of_mem c hm))
          (by rw [List.length_append]; exact hcap.2)
          (by rw [List.flatten_cons, ← List.append_assoc] at hterm; exact hterm)
        obtain ⟨h', hh⟩ := hrec
        refine ⟨h', ?_⟩
        simp only [readLoopFull, htop', if_false, hcne, Bool.false_eq_true,
          Nat.not_lt.mpr hclen]
        simpa [Nat.not_lt.mpr hclen] using hh

/-- C4 (amended): a zero-byte read before the terminator yields `Eof`;
the cap is enforced at every growth, with the buffer bounded by the cap
plus one 1024-byte chunk; an `Oversized` exit happens only when the
accumulated bytes exceed 16 KiB; a `done` exit stays within the cap;
and a response whose terminator arrives while the accumulated total
stays within the cap is always accepted — but a read may carry the
total past the cap in the same step that delivers the terminator, so
staying within the cap refers to the accumulated read totals, not to
the header section alone (see the counterexample). -/
theorem c4_loop_bounds :
    (∀ (hdr : List Nat) (sp : Nat) (rest : List (List Nat)),
      hasTerm (hdr.drop sp) = false →
      readLoopFull hdr sp ([] :: rest) = .eof hdr) ∧
    (∀ (hdr : List Nat) (sp : Nat) (c : List Nat) (rest : List (List Nat)),
      hasTerm (hdr.drop sp) = false → c ≠ [] → 16 * 1024 < (hdr ++ c).length →
      readLoopFull hdr sp (c :: rest) = .oversized (hdr ++ c)) ∧
    (∀ (chunks : List (List Nat)) (hdr : List Nat) (sp : Nat),
      hdr.length ≤ 16 * 1024 → (∀ c ∈ chunks, c.length ≤ 1024) →
      (readLoopFull hdr sp chunks).hdr.length ≤ 16 * 1024 + 1024) ∧
    (∀ (chunks : List (List Nat)) (hdr h' : List Nat) (sp : Nat),
      readLoopFull hdr sp chunks = .oversized h' → 16 * 1024 < h'.length) ∧
    (∀ (chunks : List (List Nat)) (hdr h' : List Nat) (sp : Nat),
      hdr.length ≤ 16 * 1024 → readLoopFull hdr sp chunks = .done h' →
      h'.length ≤ 16 * 1024) ∧
    (∀ chunks : List (List Nat), (∀ c ∈ chunks, c ≠ []) → capOk 0 chunks →
      hasTerm chunks.flatten = true →
      ∃ h', readLoopFull [] 0 chunks = .done h') :=
  ⟨readLoop_zero_read, readLoop_growth,
   fun chunks hdr sp h1 h2 => readLoop_hdr_bound chunks hdr sp h1 h2,
   fun chunks hdr h' sp h => readLoop_oversized_gt chunks hdr h' sp h,
   fun chunks hdr h' sp h1 h => readLoop_done_le chunks hdr h' sp h1 h,
   fun chunks hne hcap hterm =>
     readLoop_complete chunks [] 0 (Nat.le_refl 0) (fun i hi => absurd hi (Nat.not_lt_zero i))
       hne hcap (by simpa using hterm)⟩

/-! #### C4 counterexample -/

/-- Filler bytes contain no terminator. -/
theorem noTerm97 (n : Nat) : hasTerm (List.replicate n 97) = false := by
  induction n with
  | zero => rfl
  | succ k ih =>
      rw [List.replicate_succ]
      simp [hasTerm, TERM, List.isPrefixOf, ih]

/-- Flattening equal chunks is one long replicate. -/
theorem flatten_replicate (k m : Nat) (a : Nat) :
    (List.replicate k (List.replicate m a)).flatten = List.replicate (k * m) a := by
  induction k with
  | zero => simp
  | succ j ih =>
      rw [List.replicate_succ, List.flatten_cons, ih,
        show (j + 1) * m = m + j * m by ring, List.replicate_add]

/-- A nonempty replicate list. -/
theorem replicate_ne_nil (n a : Nat) (h : 0 < n) : List.replicate n a ≠ [] := by
  intro he
  have hlen := congrArg List.length he
  rw [List.length_replicate, List.length_nil] at hlen
  omega

/-- A false Bool condition, in the form `if` needs. -/
theorem bool_cond_false {b : Bool} (h : b = false) : ¬ (b = true) := by
  rw [h]
  exact Bool.false_ne_true

/-- Running the loop over `k` full 1024-byte filler chunks within the
cap just accumulates them. -/
theorem loop_rep_chunks (k : Nat) :
    ∀ (n sp : Nat) (rest : List (List Nat)), n + 1024 * k ≤ 16 * 1024 →
    ∃ sp', readLoopFull (List.replicate n 97) sp
        (List.replicate k (List.replicate 1024 97) ++ rest)
      = readLoopFull (List.replicate (n + 1024 * k) 97) sp' rest := by
  induction k with
  | zero =>
      intro n sp rest _
      refine ⟨sp, ?_⟩
      rw [show (1024 * 0 : Nat) = 0 by norm_num, Nat.add_zero]
      rfl
  | succ j ih =>
      intro n sp rest h
      rw [List.replicate_succ, List.cons_append]
      have htop : hasTerm ((List.replicate n 97).drop sp) = false := by
        rw [List.drop_replicate]
        exact noTerm97 _
      have hne : (List.replicate 1024 (97 : Nat)) ≠ [] :=
        replicate_ne_nil 1024 97 (by omega)
      have hmerge : List.replicate n (97 : Nat) ++ List.replicate 1024 97
          = List.replicate (n + 1024) 97 := (List.replicate_add n 1024 97).symm
      have hcap : ¬ (List.replicate n (97 : Nat) ++ List.replicate 1024 97).length
          > 16 * 1024 := by
        rw [List.length_append, List.length_replicate, List.length_replicate]
        omega
      obtain ⟨sp', hrec⟩ := ih (n + 1024) ((List.replicate n (97 : Nat)).length - 3)
        rest (by omega)
      refine ⟨sp', ?_⟩
      rw [readLoop_step _ _ _ _ htop hne hcap, hmerge, hrec,
        show n + 1024 + 1024 * j = n + 1024 * (j + 1) by ring]

/-- C4 counterexample: a delivery whose header section through the
terminator ends exactly at the 16 KiB cap (16380 filler bytes, then a
read starting with `\r\n\r\n`) is rejected as `Oversized`, because the
1024-byte read that completes the terminator carries the accumulated
total to 17404 bytes and the cap check runs before the terminator scan;
every read here is nonempty and at most 1024 bytes. -/
theorem c4_cap_counterexample :
    (∃ r, readLoopFull [] 0 c4cex = .oversized r) ∧
    c4cex.flatten = List.replicate 16380 97 ++ TERM ++ List.replicate 1020 97 ∧
    (List.replicate 16380 (97 : Nat) ++ TERM).length ≤ 16 * 1024 ∧
    (∀ c ∈ c4cex, c.length ≤ 1024 ∧ c ≠ []) := by
  refine ⟨?_, ?_, ?_, ?_⟩
  · obtain ⟨sp', hrun⟩ := loop_rep_chunks 15 0 0
      [List.replicate 1020 97, TERM ++ List.replicate 1020 97] (by omega)
    have h0 : List.replicate 0 (97 : Nat) = [] := rfl
    rw [h0] at hrun
    unfold c4cex
    rw [hrun]
    have htop1 : hasTerm ((List.replicate (0 + 1024 * 15) (97 : Nat)).drop sp')
        = false := by
      rw [List.drop_replicate]
      exact noTerm97 _
    have hne1 : (List.replicate 1020 (97 : Nat)) ≠ [] :=
      replicate_ne_nil 1020 97 (by omega)
    have hmerge1 : List.replicate (0 + 1024 * 15) (97 : Nat) ++ List.replicate 1020 97
        = List.replicate 16380 97 := by
      rw [← List.replicate_add]
    have hcap1 : ¬ (List.replicate (0 + 1024 * 15) (97 : Nat)
        ++ List.replicate 1020 97).length > 16 * 1024 := by
      rw [List.length_append, List.length_replicate, List.length_replicate]
      omega
    have htop2 : hasTerm ((List.replicate 16380 (97 : Nat)).drop
        ((List.replicate (0 + 1024 * 15) (97 : Nat)).length - 3)) = false := by
      rw [List.drop_replicate]
      exact noTerm97 _
    have hne2 : TERM ++ List.replicate 1020 (97 : Nat) ≠ [] := by
      intro he
      have hlen := congrArg List.length he
      rw [List.length_append, List.length_replicate, List.length_nil] at hlen
      have ht4 : TERM.length = 4 := rfl
      omega
    have hcap2 : 16 * 1024 < (List.replicate 16380 (97 : Nat)
        ++ (TERM ++ List.replicate 1020 97)).length := by
      rw [List.length_append, List.length_replicate, List.length_append,
        List.length_replicate]
      have ht4 : TERM.length = 4 := rfl
      omega
    rw [readLoop_step _ _ _ _ htop1 hne1 hcap1, hmerge1,
      readLoop_growth _ _ _ _ htop2 hne2 hcap2]
    exact ⟨_, rfl⟩
  · unfold c4cex
    rw [List.flatten_append, flatten_replicate, List.flatten_cons, List.flatten_cons,
      List.flatten_nil, List.append_nil]
    rw [show (16380 : Nat) = 15 * 1024 + 1020 by norm_num, List.replicate_add]
    simp only [List.append_assoc]
  · rw [List.length_append, List.length_replicate]
    have ht4 : TERM.length = 4 := rfl
    omega
  · intro c hc
    unfold c4cex at hc
    rw [List.mem_append, List.mem_replicate] at hc
    rcases hc with ⟨-, rfl⟩ | hc
    · exact ⟨by rw [List.length_replicate], replicate_ne_nil 1024 97 (by omega)⟩
    · rcases List.mem_cons.mp hc with rfl | hc2
      · refine ⟨?_, replicate_ne_nil 1020 97 (by omega)⟩
        rw [List.length_replicate]
        omega
      · rcases List.mem_cons.mp hc2 with rfl | hc3
        · constructor
          · rw [List.length_append, List.length_replicate]
            have ht4 : TERM.length = 4 := rfl
            omega
          · intro he
            have hlen := congrArg List.length he
            rw [List.length_append, List.length_replicate, List.length_nil] at hlen
            have ht4 : TERM.length = 4 := rfl
            omega
        · cases hc3

/-- Witness for C4's quantified conjuncts at concrete deliveries. -/
theorem c4_loop_bounds_witness :
    readLoopFull [] 0 [[]] = .eof [] ∧
    readLoopFull [] 0 [List.replicate 17000 97] =
      .oversized ([] ++ List.replicate 17000 97) ∧
    (readLoopFull [] 0 [[13, 10, 13, 10]]).hdr.length ≤ 16 * 1024 + 1024 ∧
    16 * 1024 < ([] ++ List.replicate 17000 (97 : Nat)).length ∧
    ([13, 10, 13, 10] : List Nat).length ≤ 16 * 1024 ∧
    (∃ h', readLoopFull [] 0 [[13, 10, 13, 10]] = .done h') := by
  have hover : readLoopFull [] 0 [List.replicate 17000 97]
      = .oversized ([] ++ List.replicate 17000 97) :=
    c4_loop_bounds.2.1 [] 0 (List.replicate 17000 97) [] rfl
      (replicate_ne_nil 17000 97 (by omega))
      (by rw [List.length_append, List.length_replicate, List.length_nil]; omega)
  refine ⟨c4_loop_bounds.1 [] 0 [] rfl, hover, ?_,
    c4_loop_bounds.2.2.2.1 [List.replicate 17000 97] []
      ([] ++ List.replicate 17000 97) 0 hover,
    c4_loop_bounds.2.2.2.2.1 [[13, 10, 13, 10]] [] [13, 10, 13, 10] 0 (by decide)
      (by decide), ?_⟩
  · refine c4_loop_bounds.2.2.1 [[13, 10, 13, 10]] [] 0 (by decide) ?_
    intro c hc
    rcases List.mem_cons.mp hc with rfl | hc2
    · decide
    · cases hc2
  · refine c4_loop_bounds.2.2.2.2.2 [[13, 10, 13, 10]] ?_ ?_ (by decide)
    · intro c hc
      rcases List.mem_cons.mp hc with rfl | hc2
      · decide
      · cases hc2
    · exact ⟨by norm_num, trivial⟩

/-! ### Connection orchestrator (C8) -/

/-- A failed URL parse aborts `connect_with_buffer_size` with the URL
error. -/
theorem connect_parse_error (url : String) (env : ConnectEnv) (bs : Nat)
    (e : UrlError) (hp : parse_ws_or_wss url = .error e) :
    connect_with_buffer_size url env bs = .error (.Url e) := by
  unfold connect_with_buffer_size
  rw [hp]

/-- A failed transport step aborts with the transport error. -/
theorem connect_transport_error (url : String) (env : ConnectEnv) (bs : Nat)
    (u : WsUrl) (e : ConnectErr) (hp : parse_ws_or_wss url = .ok u)
    (ht : establishTransport u.scheme env = .error e) :
    connect_with_buffer_size url env bs = .error e := by
  unfold connect_with_buffer_size
  rw [hp]
  dsimp only
  rw [ht]

/-- A failed request write aborts with the upgrade error. -/
theorem connect_write_error (url : String) (env : ConnectEnv) (bs : Nat)
    (u : WsUrl) (e : UpgradeErr) (hp : parse_ws_or_wss url = .ok u)
    (ht : establishTransport u.scheme env = .ok ())
    (hw : env.writeResult = .error e) :
    connect_with_buffer_size url env bs = .error (.Upgrade e) := by
  unfold connect_with_buffer_size
  rw [hp]
  dsimp only
  rw [ht]
  dsimp only
  rw [hw]

/-- A failed response read aborts with the upgrade error. -/
theorem connect_read_error (url : String) (env : ConnectEnv) (bs : Nat)
    (u : WsUrl) (e : UpgradeErr) (hp : parse_ws_or_wss url = .ok u)
    (ht : establishTransport u.scheme env = .ok ())
    (hw : env.writeResult = .ok ()) (hr : env.readResult = .error e) :
    connect_with_buffer_size url env bs = .error (.Upgrade e) := by
  unfold connect_with_buffer_size
  rw [hp]
  dsimp only
  rw [ht]
  dsimp only
  rw [hw]
  dsimp only
  rw [hr]

/-- When every step succeeds, the constructed client in closed form. -/
theorem connect_ok_eq (url : String) (env : ConnectEnv) (bs : Nat)
    (u : WsUrl) (hp : parse_ws_or_wss url = .ok u)
    (ht : establishTransport u.scheme env = .ok ())
    (hw : env.writeResult = .ok ()) (hr : env.readResult = .ok ()) :
    connect_with_buffer_size url env bs
      = .ok ⟨⟨.Client, true, true, if u.scheme = .Wss then false else true⟩⟩ := by
  unfold connect_with_buffer_size
  rw [hp]
  dsimp only
  rw [ht]
  dsimp only
  rw [hw]
  dsimp only
  rw [hr]
  dsimp only
  by_cases hs : u.scheme = .Wss
  · simp [hs, after_handshake]
  · simp [hs, after_handshake]

/-- C8: every successful `connect_with_buffer_size` returns a frame
engine in client role with automatic close and pong handling enabled
and write-gathering disabled exactly on the TLS (`wss`) path; every
failing step aborts the whole call with the originating typed error and
no client value. -/
theorem c8_connect_shape :
    (∀ (url : String) (env : ConnectEnv) (bs : Nat) (c : WsClientM),
      connect_with_buffer_size url env bs = .ok c →
      c.ws.role = .Client ∧ c.ws.autoClose = true ∧ c.ws.autoPong = true ∧
      (c.ws.writev = false ↔
        Except.map WsUrl.scheme (parse_ws_or_wss url) = .ok .Wss)) ∧
    (∀ (url : String) (env : ConnectEnv) (bs : Nat) (e : UrlError),
      parse_ws_or_wss url = .error e →
      connect_with_buffer_size url env bs = .error (.Url e)) ∧
    (∀ (url : String) (env : ConnectEnv) (bs : Nat) (u : WsUrl) (e : ConnectErr),
      parse_ws_or_wss url = .ok u →
      establishTransport u.scheme env = .error e →
      connect_with_buffer_size url env bs = .error e) ∧
    (∀ (url : String) (env : ConnectEnv) (bs : Nat) (u : WsUrl) (e : UpgradeErr),
      parse_ws_or_wss url = .ok u →
      establishTransport u.scheme env = .ok () →
      env.writeResult = .error e →
      connect_with_buffer_size url env bs = .error (.Upgrade e)) ∧
    (∀ (url : String) (env : ConnectEnv) (bs : Nat) (u : WsUrl) (e : UpgradeErr),
      parse_ws_or_wss url = .ok u →
      establishTransport u.scheme env = .ok () →
      env.writeResult = .ok () → env.readResult = .error e →
      connect_with_buffer_size url env bs = .error (.Upgrade e)) := by
  refine ⟨?_, connect_parse_error, connect_transport_error, connect_write_error,
    connect_read_error⟩
  intro url env bs c h
  cases hp : parse_ws_or_wss url with
  | error e =>
      rw [connect_parse_error url env bs e hp] at h
      simp at h
  | ok u =>
      cases ht : establishTransport u.scheme env with
      | error e =>
          rw [connect_transport_error url env bs u e hp ht] at h
          simp at h
      | ok uu =>
          cases uu
          cases hw : env.writeResult with
          | error e =>
              rw [connect_write_error url env bs u e hp ht hw] at h
              simp at h
          | ok uu2 =>
              cases uu2
              cases hr : env.readResult with
              | error e =>
                  rw [connect_read_error url env bs u e hp ht hw hr] at h
                  simp at h
              | ok uu3 =>
                  cases uu3
                  rw [connect_ok_eq url env bs u hp ht hw hr] at h
                  have hc : c = ⟨⟨.Client, true, true,
                      if u.scheme = .Wss then false else true⟩⟩ := by
                    cases h
                    rfl
                  subst hc
                  by_cases hs : u.scheme = .Wss
                  · simp [hs, hp, Except.map]
                  · simp [hs, hp, Except.map]

/-- Witness for C8 at concrete environments: a successful TLS connect,
a successful plain connect, a bad-scheme URL, a failed TCP connect, a
failed write, and a failed read. -/
theorem c8_connect_shape_witness :
    ((⟨⟨.Client, true, true, false⟩⟩ : WsClientM).ws.role = .Client ∧
      (⟨⟨.Client, true, true, false⟩⟩ : WsClientM).ws.autoClose = true ∧
      (⟨⟨.Client, true, true, false⟩⟩ : WsClientM).ws.autoPong = true ∧
      ((⟨⟨.Client, true, true, false⟩⟩ : WsClientM).ws.writev = false ↔
        Except.map WsUrl.scheme (parse_ws_or_wss "wss://h:1/x") = .ok .Wss)) ∧
    connect_with_buffer_size "http://x" ⟨true, true, true, true, .ok (), .ok ()⟩ 16384
      = .error (.Url .Scheme) ∧
    connect_with_buffer_size "ws://h/x" ⟨false, true, true, true, .ok (), .ok ()⟩ 16384
      = .error .Io ∧
    connect_with_buffer_size "ws://h/x" ⟨true, true, true, true, .error .Eof, .ok ()⟩
      16384 = .error (.Upgrade .Eof) ∧
    connect_with_buffer_size "ws://h/x" ⟨true, true, true, true, .ok (), .error .Accept⟩
      16384 = .error (.Upgrade .Accept) :=
  ⟨c8_connect_shape.1 "wss://h:1/x" ⟨true, true, true, true, .ok (), .ok ()⟩ 16384
      ⟨⟨.Client, true, true, false⟩⟩ (by decide),
   c8_connect_shape.2.1 "http://x" _ 16384 .Scheme (by decide),
   c8_connect_shape.2.2.1 "ws://h/x" ⟨false, true, true, true, .ok (), .ok ()⟩ 16384
      ⟨.Ws, "h".toList, 80, "/x".toList⟩ .Io (by decide) (by decide),
   c8_connect_shape.2.2.2.1 "ws://h/x" ⟨true, true, true, true, .error .Eof, .ok ()⟩
      16384 ⟨.Ws, "h".toList, 80, "/x".toList⟩ .Eof (by decide) (by decide) rfl,
   c8_connect_shape.2.2.2.2 "ws://h/x" ⟨true, true, true, true, .ok (), .error .Accept⟩
      16384 ⟨.Ws, "h".toList, 80, "/x".toList⟩ .Accept (by decide) (by decide) rfl rfl⟩

/-- The exact sum of a single extra header. -/
theorem trueExtra_single (a b : List Nat) :
    trueExtra [(a, b)] = a.length + 2 + b.length + 2 := by
  rw [trueExtra_cons]
  have h0 : trueExtra ([] : List (List Nat × List Nat)) = 0 := rfl
  rw [h0]

/-- C3 (amended): the extra-headers sum is guarded by a `checked_add`
at every addition and the final base-plus-extras addition is checked —
overflow in either fails the call with an I/O error before any
transport operation — but the base sum over path, host, and nonce is
wrapping, and every representable request succeeds. -/
theorem c3_overflow_checks (host path key : List Nat)
    (ex : List (List Nat × List Nat)) :
    (extra_headers_len ex
      = if trueExtra ex < USIZE then some (trueExtra ex) else none) ∧
    (USIZE ≤ trueExtra ex → write_request host path key ex = .error .Io) ∧
    (∀ el, extra_headers_len ex = some el →
      USIZE ≤ base_len host path key + el →
      write_request host path key ex = .error .Io) ∧
    (requestTrueSize host path key ex < USIZE →
      ∃ ops, write_request host path key ex = .ok ops) := by
  refine ⟨extra_headers_len_eq ex, ?_, ?_, ?_⟩
  · intro hover
    unfold write_request
    rw [extra_headers_len_eq, if_neg (by omega)]
  · intro el hel hover
    unfold write_request
    rw [hel]
    dsimp only
    unfold checkedAdd
    rw [if_neg (by omega)]
  · intro hrep
    exact ⟨_, (write_request_spec host path key ex hrep).2.1⟩

/-- Witness for C3's amended statement: an extra-header pair whose
checked sum overflows fails with an I/O error, and a small request
succeeds. -/
theorem c3_overflow_checks_witness :
    write_request [104] [47] [75]
      [(List.replicate 9223372036854775807 97, List.replicate 9223372036854775807 97)]
      = .error .Io ∧
    ∃ ops, write_request [104] [47] [75] [] = .ok ops :=
  ⟨(c3_overflow_checks [104] [47] [75] _).2.1 (by
      rw [trueExtra_single, List.length_replicate, USIZE]
      omega),
   (c3_overflow_checks [104] [47] [75] []).2.2.2
      (by decide)⟩

/-! ### URL parser totality and byte-level slicing safety (C9) -/

/-- An ASCII character encodes to its single code-point byte. -/
theorem encodeChar_ascii (c : Char) (h : c.toNat < 128) : encodeChar c = [c.toNat] := by
  simp [encodeChar, h]

/-- A character's UTF-8 encoding is never empty. -/
theorem encodeChar_ne_nil (c : Char) : encodeChar c ≠ [] := by
  by_cases h1 : c.toNat < 128
  · simp [encodeChar, h1]
  · by_cases h2 : c.toNat < 2048
    · simp [encodeChar, h1, h2]
    · by_cases h3 : c.toNat < 65536
      · simp [encodeChar, h1, h2, h3]
      · simp [encodeChar, h1, h2, h3]

/-- Only the character whose code point is `b` can put a byte `b < 128`
into an encoding: lead and continuation bytes of multi-byte encodings
are all at least 128. -/
theorem mem_encodeChar_lt128 (c : Char) (b : Nat) (hmem : b ∈ encodeChar c)
    (hb : b < 128) : c.toNat = b := by
  by_cases h1 : c.toNat < 128
  · rw [encodeChar_ascii c h1] at hmem
    exact (List.mem_singleton.mp hmem).symm
  · by_cases h2 : c.toNat < 2048
    · simp [encodeChar, h1, h2] at hmem
      rcases hmem with rfl | rfl <;> omega
    · by_cases h3 : c.toNat < 65536
      · simp [encodeChar, h1, h2, h3] at hmem
        rcases hmem with rfl | rfl | rfl <;> omega
      · simp [encodeChar, h1, h2, h3] at hmem
        rcases hmem with rfl | rfl | rfl | rfl <;> omega

/-- A byte below 128 other than a character's code point never occurs
in that character's encoding. -/
theorem not_mem_encodeChar (c : Char) (k : Nat) (hk : k < 128)
    (hc : c.toNat ≠ k) : k ∉ encodeChar c :=
  fun hm => hc (mem_encodeChar_lt128 c k hm hk)

/-- Characters with equal code points are equal. -/
theorem char_toNat_inj (a b : Char) (h : a.toNat = b.toNat) : a = b := by
  have hh := congrArg Char.ofNat h
  rwa [Char.ofNat_toNat, Char.ofNat_toNat] at hh

/-- The encoding of a non-ASCII character starts with a byte of at
least 128. -/
theorem encodeChar_head_ge (c : Char) (h : ¬ c.toNat < 128) :
    ∃ b0 bs, encodeChar c = b0 :: bs ∧ 128 ≤ b0 := by
  by_cases h2 : c.toNat < 2048
  · exact ⟨192 + c.toNat / 64, [128 + c.toNat % 64], by simp [encodeChar, h, h2], by omega⟩
  · by_cases h3 : c.toNat < 65536
    · exact ⟨224 + c.toNat / 4096, [128 + c.toNat / 64 % 64, 128 + c.toNat % 64],
        by simp [encodeChar, h, h2, h3], by omega⟩
    · exact ⟨240 + c.toNat / 262144,
        [128 + c.toNat / 4096 % 64, 128 + c.toNat / 64 % 64, 128 + c.toNat % 64],
        by simp [encodeChar, h, h2, h3], by omega⟩

/-- `utf8Bytes` on a cons. -/
theorem utf8Bytes_cons (c : Char) (cs : List Char) :
    utf8Bytes (c :: cs) = encodeChar c ++ utf8Bytes cs := rfl

/-- `utf8Bytes` of a cons with an ASCII head. -/
theorem utf8Bytes_cons_ascii (c : Char) (cs : List Char) (h : c.toNat < 128) :
    utf8Bytes (c :: cs) = c.toNat :: utf8Bytes cs := by
  rw [utf8Bytes_cons, encodeChar_ascii c h]
  rfl

/-- `breakFirstB` skips a prefix free of the separator byte. -/
theorem breakFirstB_append (k : Nat) (pre rest : List Nat) (h : k ∉ pre) :
    breakFirstB k (pre ++ rest)
      = (breakFirstB k rest).map (fun p => (pre ++ p.1, p.2)) := by
  induction pre with
  | nil =>
      rw [List.nil_append]
      cases hb : breakFirstB k rest
      · rfl
      · rfl
  | cons x xs ih =>
      have hx : ¬ x = k := fun e => h (e ▸ List.mem_cons_self x xs)
      have h2 : k ∉ xs := fun hm => h (List.mem_cons_of_mem _ hm)
      rw [List.cons_append]
      simp only [breakFirstB]
      rw [if_neg hx, ih h2]
      cases hb : breakFirstB k rest
      · rfl
      · rfl

/-- `rsplitOnceB` skips a prefix free of the separator byte. -/
theorem rsplitOnceB_append (k : Nat) (pre rest : List Nat) (h : k ∉ pre) :
    rsplitOnceB k (pre ++ rest)
      = (rsplitOnceB k rest).map (fun p => (pre ++ p.1, p.2)) := by
  induction pre with
  | nil =>
      rw [List.nil_append]
      cases hb : rsplitOnceB k rest
      · rfl
      · rfl
  | cons x xs ih =>
      have hx : ¬ x = k := fun e => h (e ▸ List.mem_cons_self x xs)
      have h2 : k ∉ xs := fun hm => h (List.mem_cons_of_mem _ hm)
      rw [List.cons_append]
      simp only [rsplitOnceB]
      rw [ih h2]
      cases hb : rsplitOnceB k rest
      · show (if x = k then some (([] : List Nat), xs ++ rest) else none) = none
        rw [if_neg hx]
      · rfl

/-- The byte-level first-occurrence split at an ASCII separator agrees
with the character-level one through UTF-8 encoding: both slices of the
byte split are encodings of the character-level slices, so the byte
offset the source slices at is a character boundary. -/
theorem breakFirstB_utf8 (ch : Char) (k : Nat) (hk : ch.toNat = k) (hlt : k < 128)
    (s : List Char) :
    breakFirstB k (utf8Bytes s)
      = (breakFirst ch s).map (fun p => (utf8Bytes p.1, utf8Bytes p.2)) := by
  subst hk
  induction s with
  | nil => rfl
  | cons c cs ih =>
      by_cases hc : c = ch
      · have hca : c.toNat < 128 := by rw [hc]; exact hlt
        have hb := utf8Bytes_cons_ascii c cs hca
        rw [hb]
        simp only [breakFirstB, breakFirst]
        have hck : c.toNat = ch.toNat := by rw [hc]
        rw [if_pos hck, if_pos hc, Option.map_some', hb]
        rfl
      · have hck : c.toNat ≠ ch.toNat := fun e => hc (char_toNat_inj c ch e)
        have hnm : ch.toNat ∉ encodeChar c := not_mem_encodeChar c ch.toNat hlt hck
        rw [utf8Bytes_cons, breakFirstB_append _ _ _ hnm, ih]
        simp only [breakFirst]
        rw [if_neg hc]
        cases hbb : breakFirst ch cs
        · rfl
        · rfl

/-- The byte-level last-occurrence split at an ASCII separator agrees
with the character-level one through UTF-8 encoding. -/
theorem rsplitOnceB_utf8 (ch : Char) (k : Nat) (hk : ch.toNat = k) (hlt : k < 128)
    (s : List Char) :
    rsplitOnceB k (utf8Bytes s)
      = (rsplitOnce ch s).map (fun p => (utf8Bytes p.1, utf8Bytes p.2)) := by
  subst hk
  induction s with
  | nil => rfl
  | cons c cs ih =>
      by_cases hc : c = ch
      · have hca : c.toNat < 128 := by rw [hc]; exact hlt
        have hb := utf8Bytes_cons_ascii c cs hca
        rw [hb]
        simp only [rsplitOnceB, rsplitOnce]
        rw [ih]
        cases hbb : rsplitOnce ch cs with
        | none =>
            simp only [Option.map_none']
            rw [if_pos (show c.toNat = ch.toNat by rw [hc]), if_pos hc]
            rfl
        | some q =>
            simp only [Option.map_some']
            rw [utf8Bytes_cons_ascii c q.1 hca]
      · have hck : c.toNat ≠ ch.toNat := fun e => hc (char_toNat_inj c ch e)
        have hnm : ch.toNat ∉ encodeChar c := not_mem_encodeChar c ch.toNat hlt hck
        rw [utf8Bytes_cons, rsplitOnceB_append _ _ _ hnm, ih]
        simp only [rsplitOnce]
        cases hbb : rsplitOnce ch cs with
        | none => simp [hc]
        | some q => rfl

/-- The digit loop of `u16::from_str` sees bytes exactly as the
character-level loop sees code points. -/
theorem parseDigitsB_utf8 (s : List Char) :
    ∀ acc, parseDigitsB acc (utf8Bytes s) = parseDigits acc s := by
  induction s with
  | nil => intro acc; rfl
  | cons c cs ih =>
      intro acc
      by_cases ha : c.toNat < 128
      · rw [utf8Bytes_cons_ascii c cs ha]
        simp only [parseDigitsB, parseDigits]
        by_cases hd : 48 ≤ c.toNat ∧ c.toNat ≤ 57
        · rw [if_pos hd, if_pos hd, ih]
        · rw [if_neg hd, if_neg hd]
      · obtain ⟨b0, bs, he, hb0⟩ := encodeChar_head_ge c ha
        have hb : utf8Bytes (c :: cs) = b0 :: (bs ++ utf8Bytes cs) := by
          rw [utf8Bytes_cons, he]
          rfl
        rw [hb]
        simp only [parseDigitsB, parseDigits]
        rw [if_neg (show ¬ (48 ≤ b0 ∧ b0 ≤ 57) by omega),
          if_neg (show ¬ (48 ≤ c.toNat ∧ c.toNat ≤ 57) by omega)]

/-- `parseU16` strips a leading plus sign. -/
theorem parseU16_plus_cons (d : Char) (ds : List Char) :
    parseU16 ('+' :: d :: ds)
      = (parseDigits 0 (d :: ds)).bind fun n => if n < 65536 then some n else none := rfl

/-- `parseU16B` strips a leading plus byte. -/
theorem parseU16B_plus_cons (b : Nat) (r : List Nat) :
    parseU16B (43 :: b :: r)
      = (parseDigitsB 0 (b :: r)).bind fun n => if n < 65536 then some n else none := rfl

/-- Without a leading plus, `parseU16` parses the whole input. -/
theorem parseU16_not_plus (c : Char) (r : List Char) (h : c ≠ '+') :
    parseU16 (c :: r)
      = (parseDigits 0 (c :: r)).bind fun n => if n < 65536 then some n else none := by
  simp only [parseU16]
  split
  · next heq =>
      split at heq
      · next heq2 => injection heq2 with h1 h2; exact absurd h1 h
      · exact absurd heq (List.cons_ne_nil c r)
  · split
    · next heq2 => injection heq2 with h1 h2; exact absurd h1 h
    · rfl

/-- Without a leading plus byte, `parseU16B` parses the whole input. -/
theorem parseU16B_not_plus (b : Nat) (r : List Nat) (h : b ≠ 43) :
    parseU16B (b :: r)
      = (parseDigitsB 0 (b :: r)).bind fun n => if n < 65536 then some n else none := by
  simp only [parseU16B]
  split
  · next heq =>
      split at heq
      · next heq2 => injection heq2 with h1 h2; exact absurd h1 h
      · exact absurd heq (List.cons_ne_nil b r)
  · split
    · next heq2 => injection heq2 with h1 h2; exact absurd h1 h
    · rfl

/-- Byte-level and character-level `u16` parsing agree through UTF-8
encoding. -/
theorem parseU16B_utf8 (s : List Char) : parseU16B (utf8Bytes s) = parseU16 s := by
  cases s with
  | nil => rfl
  | cons c cs =>
      by_cases hp : c = '+'
      · have hca : c.toNat < 128 := by rw [hp]; decide
        have hb := utf8Bytes_cons_ascii c cs hca
        have hc43 : c.toNat = 43 := by rw [hp]; rfl
        rw [hb, hc43, hp]
        cases cs with
        | nil => rfl
        | cons d ds =>
            cases hE : encodeChar d with
            | nil => exact absurd hE (encodeChar_ne_nil d)
            | cons b0 bs =>
                have he : utf8Bytes (d :: ds) = b0 :: (bs ++ utf8Bytes ds) := by
                  rw [utf8Bytes_cons, hE]
                  rfl
                rw [he, parseU16B_plus_cons, parseU16_plus_cons, ← he,
                  parseDigitsB_utf8]
      · have hc43 : c.toNat ≠ 43 := fun e => hp (char_toNat_inj c '+' e)
        by_cases ha : c.toNat < 128
        · have hb := utf8Bytes_cons_ascii c cs ha
          rw [hb, parseU16B_not_plus _ _ hc43, parseU16_not_plus _ _ hp, ← hb,
            parseDigitsB_utf8]
        · obtain ⟨b0, bs, he, hb0⟩ := encodeChar_head_ge c ha
          have hb : utf8Bytes (c :: cs) = b0 :: (bs ++ utf8Bytes cs) := by
            rw [utf8Bytes_cons, he]
            rfl
          rw [hb, parseU16B_not_plus _ _ (by omega), parseU16_not_plus _ _ hp, ← hb,
            parseDigitsB_utf8]

/-- After the scheme prefix, the byte-level parse — which performs the
source's slicing at the byte offsets of `/` and `:` — returns exactly
the UTF-8 encodings of the character-level fields. -/
theorem parseAfterSchemeB_utf8 (sch : Scheme) (rest : List Char) :
    parseAfterSchemeB sch (utf8Bytes rest)
      = (parseAfterScheme sch rest).map encodeUrl := by
  simp only [parseAfterScheme, parseAfterSchemeB]
  rw [breakFirstB_utf8 '/' 47 rfl (by decide) rest]
  cases hbf : breakFirst '/' rest with
  | none =>
      simp only [Option.map_none']
      rw [rsplitOnceB_utf8 ':' 58 rfl (by decide) rest]
      cases hrs : rsplitOnce ':' rest with
      | none =>
          simp only [Option.map_none']
          rfl
      | some q =>
          simp only [Option.map_some']
          rw [parseU16B_utf8 q.2]
          cases hp : parseU16 q.2 with
          | none => rfl
          | some n => rfl
  | some p =>
      simp only [Option.map_some']
      rw [rsplitOnceB_utf8 ':' 58 rfl (by decide) p.1]
      cases hrs : rsplitOnce ':' p.1 with
      | none =>
          simp only [Option.map_none']
          rfl
      | some q =>
          simp only [Option.map_some']
          rw [parseU16B_utf8 q.2]
          cases hp : parseU16 q.2 with
          | none => rfl
          | some n => rfl

/-- UTF-8 encoding preserves prefix tests against an all-ASCII pattern,
and dropping the pattern's byte length lands on a character boundary. -/
theorem isPrefixOf_utf8 (pre : List Char) :
    ∀ s : List Char, (∀ c ∈ pre, c.toNat < 128) →
      (List.isPrefixOf (pre.map Char.toNat) (utf8Bytes s) = List.isPrefixOf pre s) ∧
      (List.isPrefixOf pre s = true →
        (utf8Bytes s).drop (pre.map Char.toNat).length = utf8Bytes (s.drop pre.length)) := by
  induction pre with
  | nil =>
      intro s _
      refine ⟨?_, fun _ => rfl⟩
      rw [List.map_nil, List.isPrefixOf_nil_left, List.isPrefixOf_nil_left]
  | cons p ps ih =>
      intro s hpre
      have hp128 : p.toNat < 128 := hpre p (List.mem_cons_self p ps)
      have hps : ∀ c ∈ ps, c.toNat < 128 := fun c hc => hpre c (List.mem_cons_of_mem _ hc)
      cases s with
      | nil =>
          refine ⟨rfl, ?_⟩
          intro h
          simp [List.isPrefixOf] at h
      | cons c cs =>
          by_cases hc : c = p
          · have hca : c.toNat < 128 := by rw [hc]; exact hp128
            have hb := utf8Bytes_cons_ascii c cs hca
            have hbeq : (p == c) = true := by rw [hc]; exact beq_self_eq_true p
            have hbeqN : (p.toNat == c.toNat) = true := by rw [hc]; exact beq_self_eq_true _
            constructor
            · rw [hb]
              show (p.toNat == c.toNat && List.isPrefixOf (ps.map Char.toNat) (utf8Bytes cs))
                  = (p == c && List.isPrefixOf ps cs)
              rw [hbeqN, hbeq, Bool.true_and, Bool.true_and, (ih cs hps).1]
            · intro hpf
              have hpf2 : (p == c && List.isPrefixOf ps cs) = true := hpf
              rw [hbeq, Bool.true_and] at hpf2
              rw [hb]
              show (utf8Bytes cs).drop (ps.map Char.toNat).length = utf8Bytes (cs.drop ps.length)
              exact (ih cs hps).2 hpf2
          · have hbeq : (p == c) = false := beq_eq_false_iff_ne.mpr (fun e => hc e.symm)
            constructor
            · by_cases ha : c.toNat < 128
              · have hb := utf8Bytes_cons_ascii c cs ha
                rw [hb]
                show (p.toNat == c.toNat && List.isPrefixOf (ps.map Char.toNat) (utf8Bytes cs))
                    = (p == c && List.isPrefixOf ps cs)
                have hbeqN : (p.toNat == c.toNat) = false :=
                  beq_eq_false_iff_ne.mpr (fun e => hc (char_toNat_inj c p e.symm))
                rw [hbeqN, hbeq, Bool.false_and, Bool.false_and]
              · obtain ⟨b0, bs, he, hb0⟩ := encodeChar_head_ge c ha
                have hb : utf8Bytes (c :: cs) = b0 :: (bs ++ utf8Bytes cs) := by
                  rw [utf8Bytes_cons, he]
                  rfl
                rw [hb]
                show (p.toNat == b0 && List.isPrefixOf (ps.map Char.toNat) (bs ++ utf8Bytes cs))
                    = (p == c && List.isPrefixOf ps cs)
                have hbeqN : (p.toNat == b0) = false := beq_eq_false_iff_ne.mpr (by omega)
                rw [hbeqN, hbeq, Bool.false_and, Bool.false_and]
            · intro hpf
              exfalso
              have hpf2 : (p == c && List.isPrefixOf ps cs) = true := hpf
              rw [hbeq, Bool.false_and] at hpf2
              exact Bool.false_ne_true hpf2

/-- The byte-level URL parse of any input's UTF-8 encoding agrees with
the character-level parse: every slice the source takes (scheme strip,
host-port/path split, host/port split) is the encoding of a
character-level slice, so no slice splits a multi-byte character. -/
theorem parseWsOrWss_utf8 (l : List Char) :
    parseWsOrWssBytes (utf8Bytes l) = (parseWsOrWssChars l).map encodeUrl := by
  have hwss := isPrefixOf_utf8 ['w', 's', 's', ':', '/', '/'] l (by decide)
  have hws := isPrefixOf_utf8 ['w', 's', ':', '/', '/'] l (by decide)
  have hmap6 : (['w', 's', 's', ':', '/', '/'] : List Char).map Char.toNat
      = [119, 115, 115, 58, 47, 47] := by decide
  have hmap5 : (['w', 's', ':', '/', '/'] : List Char).map Char.toNat
      = [119, 115, 58, 47, 47] := by decide
  simp only [parseWsOrWssBytes, parseWsOrWssChars]
  by_cases h1 : List.isPrefixOf ['w', 's', 's', ':', '/', '/'] l = true
  · have hb1 : List.isPrefixOf [119, 115, 115, 58, 47, 47] (utf8Bytes l) = true := by
      rw [← hmap6, hwss.1]
      exact h1
    have hd1 : (utf8Bytes l).drop 6 = utf8Bytes (l.drop 6) := by
      have hh := hwss.2 h1
      rw [hmap6] at hh
      simpa using hh
    rw [if_pos hb1, if_pos h1, hd1]
    exact parseAfterSchemeB_utf8 .Wss (l.drop 6)
  · have hb1 : ¬ List.isPrefixOf [119, 115, 115, 58, 47, 47] (utf8Bytes l) = true := by
      rw [← hmap6, hwss.1]
      exact h1
    rw [if_neg hb1, if_neg h1]
    by_cases h2 : List.isPrefixOf ['w', 's', ':', '/', '/'] l = true
    · have hb2 : List.isPrefixOf [119, 115, 58, 47, 47] (utf8Bytes l) = true := by
        rw [← hmap5, hws.1]
        exact h2
      have hd2 : (utf8Bytes l).drop 5 = utf8Bytes (l.drop 5) := by
        have hh := hws.2 h2
        rw [hmap5] at hh
        simpa using hh
      rw [if_pos hb2, if_pos h2, hd2]
      exact parseAfterSchemeB_utf8 .Ws (l.drop 5)
    · have hb2 : ¬ List.isPrefixOf [119, 115, 58, 47, 47] (utf8Bytes l) = true := by
        rw [← hmap5, hws.1]
        exact h2
      rw [if_neg hb2, if_neg h2]
      rfl

/-- C9: `parse_ws_or_wss` is total and panic-free.  Every input string,
including the empty string, inputs with no host, empty port suffixes,
and arbitrary Unicode, returns a parsed `WsUrl` or a typed `UrlError`
(Scheme or Port).  The byte-level parse of the input's UTF-8 encoding —
which performs the source's string slicing at the byte offsets of `/`
and `:`, exactly as Rust indexes `&str` by bytes — agrees with the
character-level parse through encoding, so every slice the source takes
stays in bounds and on a character boundary. -/
theorem c9_url_total_safe :
    (∀ s : String, parse_ws_or_wss s = .error .Scheme ∨
        parse_ws_or_wss s = .error .Port ∨ ∃ u, parse_ws_or_wss s = .ok u) ∧
    (∀ l : List Char,
        parseWsOrWssBytes (utf8Bytes l) = (parseWsOrWssChars l).map encodeUrl) ∧
    parse_ws_or_wss "" = .error .Scheme ∧
    parse_ws_or_wss "ws:" = .error .Scheme ∧
    parse_ws_or_wss "ws://" = .ok ⟨.Ws, [], 80, ['/']⟩ ∧
    parse_ws_or_wss "ws://:" = .error .Port ∧
    parse_ws_or_wss "ws://h:" = .error .Port ∧
    parse_ws_or_wss "ws://héllo:99/π∀" = .ok ⟨.Ws, "héllo".toList, 99, "/π∀".toList⟩ := by
  refine ⟨?_, parseWsOrWss_utf8, by decide, by decide, by decide, by decide, by decide,
    by decide⟩
  intro s
  cases h : parse_ws_or_wss s with
  | ok u => exact .inr (.inr ⟨u, rfl⟩)
  | error e =>
      cases e with
      | Scheme => exact .inl rfl
      | Port => exact .inr (.inl rfl)

end WsMonoio
